import Mathlib

/-!
Verification development for the Arka System Manager core
(browser dashboard: metric simulation, template assistant, storage adapter,
profile registry, alert evaluation).  Each JavaScript function of the source
is embedded as a pure Lean definition; stateful code is modelled by explicit
state passing, `Date.now()` / `Math.random()` / `Math.sin` by explicit
oracle parameters, and fallible platform calls by `Option`.
-/

namespace Arka

/-! ## String helpers (JS `String.prototype` semantics over `List Char`) -/

/-- JS `needle` is a prefix of `hay` (`String.prototype.startsWith`). -/
def startsWith : List Char → List Char → Bool
  | _, [] => true
  | [], _ :: _ => false
  | h :: hs, n :: ns => h == n && startsWith hs ns

/-- JS `hay.includes(needle)`: substring containment. -/
def includes : List Char → List Char → Bool
  | [], needle => needle.isEmpty
  | h :: t, needle => startsWith (h :: t) needle || includes t needle

/-- JS `toLowerCase` (ASCII range; the Persian keywords are caseless). -/
def toLowerCase (s : List Char) : List Char := s.map Char.toLower

/-! ## Template Engine intent classification
(`AILocalEngine.processQuery`, src/unnamed/part_000 lines 470-484).
The source computes an intent tag from Persian keywords:
بهینه/سرعت/کند → system_optimization, فایل/پاک/حذف → file_management,
شبکه/اینترنت/اتصال → network, otherwise general. -/

/-- Intent computation of `processQuery`:
`lowerQuery = query.toLowerCase()`, then the `if/else if` keyword chain. -/
def classifyIntent (query : List Char) : List Char :=
  let lowerQuery := toLowerCase query
  if includes lowerQuery ("بهینه").toList
      || includes lowerQuery ("سرعت").toList
      || includes lowerQuery ("کند").toList then
    ("system_optimization").toList
  else if includes lowerQuery ("فایل").toList
      || includes lowerQuery ("پاک").toList
      || includes lowerQuery ("حذف").toList then
    ("file_management").toList
  else if includes lowerQuery ("شبکه").toList
      || includes lowerQuery ("اینترنت").toList
      || includes lowerQuery ("اتصال").toList then
    ("network").toList
  else
    ("general").toList

/-! ## `categorizeCommand` (src/utils.js lines 469-489):
first category (in object insertion order) one of whose keywords occurs in
the lowercased command, else general. -/

def categoriesTable : List (List Char × List (List Char)) :=
  [ (("system").toList,
      [("cpu").toList, ("ram").toList, ("memory").toList, ("processing").toList,
       ("process").toList, ("memory").toList, ("system").toList]),
    (("network").toList,
      [("network").toList, ("internet").toList, ("ping").toList, ("port").toList,
       ("speed").toList, ("download").toList, ("upload").toList]),
    (("security").toList,
      [("security").toList, ("virus").toList, ("antivirus").toList, ("scan").toList,
       ("malware").toList, ("firewall").toList]),
    (("gaming").toList,
      [("game").toList, ("gaming").toList, ("graphics").toList, ("fps").toList,
       ("performance").toList]),
    (("optimization").toList,
      [("optimize").toList, ("fast").toList, ("slow").toList, ("speed").toList,
       ("boost").toList, ("performance").toList]),
    (("disk").toList,
      [("disk").toList, ("storage").toList, ("drive").toList, ("hdd").toList,
       ("ssd").toList, ("space").toList]),
    (("automation").toList,
      [("script").toList, ("automation").toList, ("batch").toList,
       ("schedule").toList, ("task").toList]) ]

def categorizeCommand (command : List Char) : List Char :=
  let lowerCommand := toLowerCase command
  match categoriesTable.find? (fun cat => cat.2.any (fun kw => includes lowerCommand kw)) with
  | some cat => cat.1
  | none => ("general").toList

/-! ## Profile Registry (src/unnamed/part_001)
`AppState.profiles` (lines 111-165) is a fixed object of four profiles;
`activateProfile` (lines 1019-1048) first sets `active = false` on every
profile, then, only if the id exists, sets the requested one active and
records it in `userSettings.selectedProfile`.  The function has no `return`
statement: it always returns `undefined`, so it is modelled as a pure state
transformer. -/

structure Profile where
  id : List Char
  name : List Char
  active : Bool
deriving DecidableEq, Repr

/-- The profile slice of `AppState`: the registry (an object modelled as an
association list keyed like the JS object) and `userSettings.selectedProfile`. -/
structure ProfileState where
  profiles : List (List Char × Profile)
  selectedProfile : List Char
deriving DecidableEq, Repr

/-- The initial `AppState.profiles` / `userSettings.selectedProfile`. -/
def initialProfileState : ProfileState :=
  { profiles :=
      [ (("gaming").toList,
          { id := ("gaming").toList, name := ("Gaming").toList, active := false }),
        (("work").toList,
          { id := ("work").toList, name := ("Work").toList, active := false }),
        (("editing").toList,
          { id := ("editing").toList, name := ("Video Editing").toList, active := false }),
        (("default").toList,
          { id := ("default").toList, name := ("Default").toList, active := true }) ],
    selectedProfile := ("default").toList }

/-- `activateProfile(profileId)`: deactivate all, then if
`AppState.profiles[profileId]` exists, activate it and persist the id. -/
def activateProfile (st : ProfileState) (profileId : List Char) : ProfileState :=
  let deactivated := st.profiles.map (fun kp => (kp.1, { kp.2 with active := false }))
  if (deactivated.lookup profileId).isSome then
    { profiles := deactivated.map (fun kp =>
        if kp.1 = profileId then (kp.1, { kp.2 with active := true }) else kp),
      selectedProfile := profileId }
  else
    { st with profiles := deactivated }

/-- Profiles currently flagged active in a registry. -/
def activeProfiles (st : ProfileState) : List (List Char × Profile) :=
  st.profiles.filter (fun kp => kp.2.active)

/-! ## Alert Evaluator (`checkAlerts`, src/unnamed/part_001 lines 1088-1111)
Three independent stateless threshold checks against
`AppState.systemStatus`; each fires a `showAlert(title, message, type)`.
We model the evaluation as the list of `(title, severity)` calls made. -/

structure CpuStatus where
  usage : ℚ
  temperature : ℚ
  cores : ℕ
  frequency : ℚ
deriving DecidableEq, Repr

structure RamStatus where
  usage : ℚ
  total : ℚ
  used : ℚ
  free : ℚ
  cache : ℚ
deriving DecidableEq, Repr

structure Snapshot where
  cpu : CpuStatus
  ram : RamStatus
deriving DecidableEq, Repr

structure AlertEvent where
  title : List Char
  severity : List Char
deriving DecidableEq, Repr

def cpuUsageAlert : AlertEvent :=
  { title := ("High CPU Usage Alert").toList, severity := ("warning").toList }

def ramUsageAlert : AlertEvent :=
  { title := ("High RAM Usage Alert").toList, severity := ("critical").toList }

def cpuTempAlert : AlertEvent :=
  { title := ("High CPU Temperature").toList, severity := ("warning").toList }

/-- `checkAlerts()` as a function of the snapshot it reads: the sequence of
`showAlert` calls it makes, in source order. -/
def checkAlerts (status : Snapshot) : List AlertEvent :=
  (if status.cpu.usage > 85 then [cpuUsageAlert] else [])
    ++ (if status.ram.usage > 90 then [ramUsageAlert] else [])
    ++ (if status.cpu.temperature > 75 then [cpuTempAlert] else [])

/-! ## Chat History Manager (`chatHistoryManager.addEntry`,
src/utils.js lines 247-264).  The source loads the log from storage,
builds a new entry with a base36 time prefix and random suffix id,
`unshift`s it, `pop`s once the length exceeds 100, and saves the log back.
The log mutation is modelled on the list itself; the random suffix of the
id is an oracle argument. -/

def base36Char (d : ℕ) : Char :=
  if d < 10 then Char.ofNat (d + 48) else Char.ofNat (d - 10 + 97)

/-- Fuelled digit expansion in base 36 (the fuel `n + 1` always suffices). -/
def natToBase36Aux : ℕ → ℕ → List Char
  | 0, _ => []
  | fuel + 1, n =>
    if n < 36 then [base36Char n]
    else natToBase36Aux fuel (n / 36) ++ [base36Char (n % 36)]

/-- JS `n.toString(36)` for a non-negative integer. -/
def natToBase36 (n : ℕ) : List Char := natToBase36Aux (n + 1) n

structure ChatEntry where
  id : List Char
  userInput : List Char
  aiResponse : List Char
  category : List Char
  timestamp : ℤ
  tags : List (List Char)
deriving DecidableEq, Repr

/-- The entry object built by `addEntry`;
`rndSuffix` stands for `Math.random().toString(36).substr(2)`. -/
def newChatEntry (userInput aiResponse category : List Char) (now : ℤ)
    (rndSuffix : List Char) : ChatEntry :=
  { id := natToBase36 now.toNat ++ rndSuffix,
    userInput := userInput,
    aiResponse := aiResponse,
    category := category,
    timestamp := now,
    tags := [] }

/-- `history.unshift(newEntry); if (history.length > 100) history.pop();`
applied to the loaded log. -/
def addEntry (userInput aiResponse category : List Char) (now : ℤ)
    (rndSuffix : List Char) (history : List ChatEntry) : List ChatEntry :=
  let history := newChatEntry userInput aiResponse category now rndSuffix :: history
  if history.length > 100 then history.dropLast else history

/-! ## Operation Simulator (`simulateSystemOperation`, src/utils.js
lines 630-691).  The fixed per-type step lists and durations; the log built
by the loop; the synthetic result object.  `Math.random()` is the oracle
`rndO` (indexed by call), `new Date().toLocaleTimeString('fa-IR')` the
oracle `tsO` (indexed by step).  The `await delay(...)` pacing has no
effect on the resolved value and is not modelled. -/

structure OperationSpec where
  name : List Char
  steps : List (List Char)
  duration : ℚ
deriving DecidableEq, Repr

def memoryOptimizationSpec : OperationSpec :=
  { name := ("Memory Optimization").toList,
    steps := [("Checking processes").toList, ("Clearing cache").toList,
              ("Reallocating memory").toList, ("Completed").toList],
    duration := 3000 }

def operationsTable (operationType : List Char) : OperationSpec :=
  if operationType = ("security_scan").toList then
    { name := ("Security Scan").toList,
      steps := [("Scanning system files").toList, ("Checking registry").toList,
                ("Analyzing network").toList, ("Generating report").toList,
                ("Completed").toList],
      duration := 5000 }
  else if operationType = ("troubleshoot").toList then
    { name := ("System Troubleshooting").toList,
      steps := [("Diagnosing problem").toList, ("Checking logs").toList,
                ("Finding solution").toList, ("Applying settings").toList,
                ("Completed").toList],
      duration := 4000 }
  else if operationType = ("disk_cleanup").toList then
    { name := ("Disk Cleanup").toList,
      steps := [("Scanning for temp files").toList, ("Analyzing disk usage").toList,
                ("Removing junk files").toList, ("Optimizing storage").toList,
                ("Completed").toList],
      duration := 6000 }
  else if operationType = ("registry_scan").toList then
    { name := ("Registry Scan").toList,
      steps := [("Scanning registry").toList, ("Finding errors").toList,
                ("Creating backup").toList, ("Fixing issues").toList,
                ("Completed").toList],
      duration := 4500 }
  else memoryOptimizationSpec

/-- `operations[operationType] || operations.memory_optimization`:
the five keyed entries, everything else defaulting. -/
def lookupOperation (operationType : List Char) : OperationSpec :=
  if operationType = ("memory_optimization").toList then memoryOptimizationSpec
  else operationsTable operationType

structure LogEntry where
  step : List Char
  progress : ℚ
  timestamp : List Char
  status : List Char
deriving DecidableEq, Repr

structure OperationResult where
  success : Bool
  freedMemory : ℤ
  threatsFound : ℤ
  issuesResolved : ℤ
  filesCleaned : ℤ
  registryFixed : ℤ
  executionTime : ℚ
  log : List LogEntry
deriving DecidableEq, Repr

/-- The log built by the step loop of `simulateSystemOperation`. -/
def operationLog (operation : OperationSpec) (tsO : ℕ → List Char) : List LogEntry :=
  (List.range operation.steps.length).map (fun i =>
    { step := operation.steps.getD i [],
      progress := ((i : ℚ) + 1) / (operation.steps.length : ℚ) * 100,
      timestamp := tsO i,
      status := if i = operation.steps.length - 1
                then ("completed").toList else ("in_progress").toList })

/-- The resolved value of `simulateSystemOperation(operationType)`. -/
def simulateSystemOperation (operationType : List Char) (tsO : ℕ → List Char)
    (rndO : ℕ → ℚ) : OperationResult :=
  let operation := lookupOperation operationType
  { success := rndO 0 > 1/10,
    freedMemory := if operationType = ("memory_optimization").toList
                   then ⌊rndO 1 * 500⌋ + 100 else 0,
    threatsFound := if operationType = ("security_scan").toList
                    then ⌊rndO 2 * 3⌋ else 0,
    issuesResolved := if operationType = ("troubleshoot").toList
                      then ⌊rndO 3 * 5⌋ + 1 else 0,
    filesCleaned := if operationType = ("disk_cleanup").toList
                    then ⌊rndO 4 * 1000⌋ + 100 else 0,
    registryFixed := if operationType = ("registry_scan").toList
                     then ⌊rndO 5 * 20⌋ + 5 else 0,
    executionTime := operation.duration,
    log := operationLog operation tsO }

/-! ## Metric Simulator chart seeding (`generateChartData`, src/utils.js
lines 97-137) and range filter (`filterDataByTimeRange`, lines 145-161).
`Math.random()` and `Math.sin` are the oracles `rnd` and `sinO`;
`Number(value.toFixed(1))` is rounding to one decimal (ECMAScript
`toFixed` picks the larger candidate on ties, i.e. half-up).  A data
point's `x` is the `Date`'s epoch-millisecond value (`getTime`). -/

structure DataPoint where
  x : ℤ
  y : ℚ
deriving DecidableEq, Repr

/-- `Number(value.toFixed(1))`: round to the nearest tenth, half up. -/
def roundTenth (q : ℚ) : ℚ := (round (10 * q) : ℤ) / 10

/-- The body of the `for (let i = count - 1; i >= 0; i--)` loop for index
`i`: the kind-specific oscillation, the random factor, the clamp to
`[min, max]`, and the one-decimal rounding. -/
def chartValue (minV maxV : ℚ) (type : List Char) (rnd : ℕ → ℚ)
    (sinO : ℚ → ℚ) (i : ℕ) : ℚ :=
  let baseValue := (minV + maxV) / 2
  let randomFactor := rnd i * (1/10) - 1/20
  let value :=
    if type = ("cpu").toList then
      baseValue * (1 + sinO ((i : ℚ) * (1/10)) * (3/10) + randomFactor)
    else if type = ("ram").toList then
      baseValue * (1 + sinO ((i : ℚ) * (1/20)) * (2/10) + randomFactor)
    else if type = ("disk").toList then
      baseValue * (1 + sinO ((i : ℚ) * (3/100)) * (15/100) + randomFactor)
    else if type = ("network").toList then
      baseValue * (1 + sinO ((i : ℚ) * (2/10)) * (4/10) + randomFactor)
    else
      baseValue * (1 + randomFactor)
  roundTenth (max minV (min maxV value))

/-- `generateChartData(count, min, max, type)` with `Date.now() = now`:
points pushed for `i = count-1` down to `0`, each at `now - i*1000`. -/
def generateChartData (count : ℕ) (minV maxV : ℚ) (type : List Char)
    (now : ℤ) (rnd : ℕ → ℚ) (sinO : ℚ → ℚ) : List DataPoint :=
  (List.range count).map (fun j =>
    let i := count - 1 - j
    { x := now - (i : ℤ) * 1000,
      y := chartValue minV maxV type rnd sinO i })

/-- The `switch(range)` lookback window of `filterDataByTimeRange`. -/
def timeLimitOf (range : List Char) : ℤ :=
  if range = ("1m").toList then 60 * 1000
  else if range = ("5m").toList then 5 * 60 * 1000
  else if range = ("1h").toList then 60 * 60 * 1000
  else if range = ("1d").toList then 24 * 60 * 60 * 1000
  else 60 * 1000

/-- `filterDataByTimeRange(data, range)` with `Date.now() = now`:
keeps the points with `now - pointTime <= timeLimit`. -/
def filterDataByTimeRange (data : List DataPoint) (range : List Char)
    (now : ℤ) : List DataPoint :=
  data.filter (fun point => now - point.x ≤ timeLimitOf range)

/-! ## part_000 storage utilities (`Utils.setLocalStorage` /
`Utils.getLocalStorage`, src/unnamed/part_000 lines 1497-1520).
`setLocalStorage(key, value, ttl = null)` stores the `{value, timestamp,
ttl}` envelope; `getLocalStorage` returns `null` when
`item.ttl && Date.now() - item.timestamp > item.ttl` (note: a `ttl` of `0`
is falsy, exactly like the `null` default) and removes the key.  The
JSON round trip of the envelope through `localStorage` is modelled by
storing the envelope itself. -/

structure StoredItem (α : Type) where
  value : α
  timestamp : ℤ
  ttl : Option ℤ
deriving DecidableEq, Repr

/-- A key-value store holding envelopes (the `localStorage` content). -/
def ItemStore (α : Type) : Type := List Char → Option (StoredItem α)

/-- JS truthiness of the stored `ttl` field (`null` and `0` are falsy). -/
def ttlTruthy : Option ℤ → Bool
  | none => false
  | some t => t != 0

/-- `Utils.setLocalStorage(key, value, ttl)` at time `now`. -/
def setLocalStorage {α : Type} (store : ItemStore α) (key : List Char)
    (value : α) (ttl : Option ℤ) (now : ℤ) : ItemStore α :=
  fun k => if k = key then some { value := value, timestamp := now, ttl := ttl }
           else store k

/-- `Utils.getLocalStorage(key)` at time `now`: the returned value and the
store after the lazy purge. -/
def getLocalStorage {α : Type} (store : ItemStore α) (key : List Char)
    (now : ℤ) : Option α × ItemStore α :=
  match store key with
  | none => (none, store)
  | some item =>
    if ttlTruthy item.ttl && decide (now - item.timestamp > item.ttl.getD 0) then
      (none, fun k => if k = key then none else store k)
    else
      (some item.value, store)

/-! ## JSON values and platform text encodings

The utils.js Storage Adapter (`saveToStorage` / `loadFromStorage`,
lines 181-242) round-trips data through `JSON.stringify` / `JSON.parse`
and, for large payloads, through `btoa(encodeURIComponent(...))`.
These platform primitives are embedded executably below.  JSON numbers
are restricted to integers (every number in the stored envelopes and in
the claims is one; floating-point formatting is out of scope). -/

inductive JValue where
  | jnull : JValue
  | jbool : Bool → JValue
  | jnum : ℤ → JValue
  | jstr : List Char → JValue
  | jarr : List JValue → JValue
  | jobj : List (List Char × JValue) → JValue

mutual

def beqJ : JValue → JValue → Bool
  | .jnull, .jnull => true
  | .jbool a, .jbool b => a == b
  | .jnum a, .jnum b => a == b
  | .jstr a, .jstr b => a == b
  | .jarr a, .jarr b => beqJArr a b
  | .jobj a, .jobj b => beqJObj a b
  | _, _ => false

def beqJArr : List JValue → List JValue → Bool
  | [], [] => true
  | a :: as', b :: bs => beqJ a b && beqJArr as' bs
  | _, _ => false

def beqJObj : List (List Char × JValue) → List (List Char × JValue) → Bool
  | [], [] => true
  | a :: as', b :: bs => (a.1 == b.1 && beqJ a.2 b.2) && beqJObj as' bs
  | _, _ => false

end

/-- Fuelled decimal digit expansion (the fuel `n + 1` always suffices). -/
def natToCharsAux : ℕ → ℕ → List Char
  | 0, _ => []
  | fuel + 1, n =>
    if n < 10 then [Char.ofNat (n + 48)]
    else natToCharsAux fuel (n / 10) ++ [Char.ofNat (n % 10 + 48)]

/-- Decimal digits of a natural number (`String(n)` for naturals). -/
def natToChars (n : ℕ) : List Char := natToCharsAux (n + 1) n

/-- Decimal representation of an integer. -/
def intToChars (n : ℤ) : List Char :=
  if n < 0 then '-' :: natToChars n.natAbs else natToChars n.toNat

/-- Lowercase hexadecimal digit. -/
def hexDigit (n : ℕ) : Char :=
  if n < 10 then Char.ofNat (n + 48) else Char.ofNat (n - 10 + 97)

/-- `JSON.stringify` escaping of one string character. -/
def escapeChar (c : Char) : List Char :=
  if c = '"' then ['\\', '"']
  else if c = '\\' then ['\\', '\\']
  else if c = Char.ofNat 8 then ['\\', 'b']
  else if c = Char.ofNat 9 then ['\\', 't']
  else if c = Char.ofNat 10 then ['\\', 'n']
  else if c = Char.ofNat 12 then ['\\', 'f']
  else if c = Char.ofNat 13 then ['\\', 'r']
  else if c.toNat < 32 then
    ['\\', 'u', '0', '0', hexDigit (c.toNat / 16), hexDigit (c.toNat % 16)]
  else [c]

/-- `JSON.stringify` of a string (with the surrounding quotes). -/
def stringifyStr (s : List Char) : List Char :=
  '"' :: s.flatMap escapeChar ++ ['"']

mutual

/-- `JSON.stringify` (no spacing, as the source calls it). -/
def stringify : JValue → List Char
  | .jnull => ['n', 'u', 'l', 'l']
  | .jbool true => ['t', 'r', 'u', 'e']
  | .jbool false => ['f', 'a', 'l', 's', 'e']
  | .jnum n => intToChars n
  | .jstr s => stringifyStr s
  | .jarr xs => '[' :: stringifyArr xs ++ [']']
  | .jobj fs => '{' :: stringifyObj fs ++ ['}']

def stringifyArr : List JValue → List Char
  | [] => []
  | [x] => stringify x
  | x :: y :: xs => stringify x ++ ',' :: stringifyArr (y :: xs)

def stringifyObj : List (List Char × JValue) → List Char
  | [] => []
  | [kv] => stringifyStr kv.1 ++ ':' :: stringify kv.2
  | kv :: kv2 :: fs => stringifyStr kv.1 ++ ':' :: stringify kv.2 ++ ',' :: stringifyObj (kv2 :: fs)

end

/-- Value of a hexadecimal digit character (code-point ranges). -/
def hexVal (c : Char) : Option ℕ :=
  if 48 ≤ c.toNat ∧ c.toNat ≤ 57 then some (c.toNat - 48)
  else if 97 ≤ c.toNat ∧ c.toNat ≤ 102 then some (c.toNat - 97 + 10)
  else if 65 ≤ c.toNat ∧ c.toNat ≤ 70 then some (c.toNat - 65 + 10)
  else none

/-- JSON insignificant whitespace. -/
def isJsonWs (c : Char) : Bool :=
  c = ' ' || c = Char.ofNat 9 || c = Char.ofNat 10 || c = Char.ofNat 13

/-- Is `c` a decimal digit (code points 48-57). -/
def isDigitC (c : Char) : Bool := 48 ≤ c.toNat && c.toNat ≤ 57

/-- One escaped or plain character inside a JSON string literal; returns
the decoded characters and the remaining input past the closing quote
when it is reached. -/
def parseStrBody : List Char → Option (List Char × List Char)
  | [] => none
  | c :: rest =>
    if c = '"' then some ([], rest)
    else if c = '\\' then
      match rest with
      | 'u' :: a :: b :: c2 :: d :: rest' => do
        let ha ← hexVal a
        let hb ← hexVal b
        let hc ← hexVal c2
        let hd ← hexVal d
        let n := ((ha * 16 + hb) * 16 + hc) * 16 + hd
        if n < 0xd800 ∨ (0xdfff < n ∧ n < 0x110000) then
          let (tl, rest'') ← parseStrBody rest'
          pure (Char.ofNat n :: tl, rest'')
        else none
      | e :: rest' => do
        let ch : Char ←
          if e = '"' then some '"'
          else if e = '\\' then some '\\'
          else if e = '/' then some '/'
          else if e = 'b' then some (Char.ofNat 8)
          else if e = 't' then some (Char.ofNat 9)
          else if e = 'n' then some (Char.ofNat 10)
          else if e = 'f' then some (Char.ofNat 12)
          else if e = 'r' then some (Char.ofNat 13)
          else none
        let (tl, rest'') ← parseStrBody rest'
        pure (ch :: tl, rest'')
      | [] => none
    else if c.toNat < 32 then none
    else do
      let (tl, rest') ← parseStrBody rest
      pure (c :: tl, rest')

/-- Consume a maximal run of decimal digits (total). -/
def parseDigitsAux : List Char → ℕ → ℕ × List Char
  | c :: rest, acc =>
    if isDigitC c then parseDigitsAux rest (acc * 10 + (c.toNat - 48))
    else (acc, c :: rest)
  | [], acc => (acc, [])

mutual

/-- Recursive-descent `JSON.parse` (integer numbers only), fuelled. -/
def parseVal : ℕ → List Char → Option (JValue × List Char)
  | 0, _ => none
  | fuel + 1, s =>
    match s.dropWhile isJsonWs with
    | [] => none
    | c :: rest =>
      if c = 'n' then
        match rest with
        | 'u' :: 'l' :: 'l' :: rest' => some (.jnull, rest')
        | _ => none
      else if c = 't' then
        match rest with
        | 'r' :: 'u' :: 'e' :: rest' => some (.jbool true, rest')
        | _ => none
      else if c = 'f' then
        match rest with
        | 'a' :: 'l' :: 's' :: 'e' :: rest' => some (.jbool false, rest')
        | _ => none
      else if c = '"' then do
        let (str, rest') ← parseStrBody rest
        pure (.jstr str, rest')
      else if c = '[' then
        match rest.dropWhile isJsonWs with
        | c2 :: rest2 =>
          if c2 = ']' then some (.jarr [], rest2)
          else do
            let (xs, rest') ← parseArrElems fuel rest
            pure (.jarr xs, rest')
        | [] => do
          let (xs, rest') ← parseArrElems fuel rest
          pure (.jarr xs, rest')
      else if c = '{' then
        match rest.dropWhile isJsonWs with
        | c2 :: rest2 =>
          if c2 = '}' then some (.jobj [], rest2)
          else do
            let (fs, rest') ← parseObjFields fuel rest
            pure (.jobj fs, rest')
        | [] => do
          let (fs, rest') ← parseObjFields fuel rest
          pure (.jobj fs, rest')
      else if c = '-' then
        match rest with
        | c2 :: _ =>
          if isDigitC c2 then
            let (n, rest') := parseDigitsAux rest 0
            some (.jnum (-(n : ℤ)), rest')
          else none
        | [] => none
      else if isDigitC c then
        let (n, rest') := parseDigitsAux (c :: rest) 0
        some (.jnum (n : ℤ), rest')
      else none

def parseArrElems : ℕ → List Char → Option (List JValue × List Char)
  | 0, _ => none
  | fuel + 1, s => do
    let (v, rest) ← parseVal fuel s
    match rest.dropWhile isJsonWs with
    | c2 :: rest2 =>
      if c2 = ',' then do
        let (vs, rest'') ← parseArrElems fuel rest2
        pure (v :: vs, rest'')
      else if c2 = ']' then pure ([v], rest2)
      else none
    | [] => none

def parseObjFields : ℕ → List Char → Option (List (List Char × JValue) × List Char)
  | 0, _ => none
  | fuel + 1, s =>
    match s.dropWhile isJsonWs with
    | c0 :: rest =>
      if c0 = '"' then do
        let (key, rest1) ← parseStrBody rest
        match rest1.dropWhile isJsonWs with
        | c1 :: rest2 =>
          if c1 = ':' then do
            let (v, rest3) ← parseVal fuel rest2
            match rest3.dropWhile isJsonWs with
            | c2 :: rest4 =>
              if c2 = ',' then do
                let (fs, rest5) ← parseObjFields fuel rest4
                pure ((key, v) :: fs, rest5)
              else if c2 = '}' then pure ([(key, v)], rest4)
              else none
            | [] => none
          else none
        | [] => none
      else none
    | [] => none

end

/-! Node-count measure used to discharge the parser fuel. -/

mutual

def jsize : JValue → ℕ
  | .jnull => 1
  | .jbool _ => 1
  | .jnum _ => 1
  | .jstr _ => 1
  | .jarr xs => 1 + asize xs
  | .jobj fs => 1 + osize fs

def asize : List JValue → ℕ
  | [] => 0
  | x :: xs => 1 + jsize x + asize xs

def osize : List (List Char × JValue) → ℕ
  | [] => 0
  | kv :: fs => 1 + jsize kv.2 + osize fs

end

/-- `JSON.parse` of a whole text. -/
def jsonParse (s : List Char) : Option JValue :=
  match parseVal (s.length + 1) s with
  | some (v, rest) => if rest.dropWhile isJsonWs = [] then some v else none
  | none => none

/-! ### `encodeURIComponent` / `decodeURIComponent`
Percent-encoding of the UTF-8 bytes of every character outside the
unreserved set `A-Z a-z 0-9 - _ . ! ~ * ' ( )`. -/

/-- UTF-8 bytes of one scalar value. -/
def utf8EncodeChar (c : Char) : List ℕ :=
  if c.toNat < 0x80 then [c.toNat]
  else if c.toNat < 0x800 then [0xc0 + c.toNat / 64, 0x80 + c.toNat % 64]
  else if c.toNat < 0x10000 then
    [0xe0 + c.toNat / 4096, 0x80 + c.toNat / 64 % 64, 0x80 + c.toNat % 64]
  else
    [0xf0 + c.toNat / 262144, 0x80 + c.toNat / 4096 % 64, 0x80 + c.toNat / 64 % 64,
      0x80 + c.toNat % 64]

/-! UTF-8 decoding of a byte list (strict; any ill-formed sequence fails,
modelling the `URIError` thrown by `decodeURIComponent`).  The two-, three-
and four-byte continuations are separate functions of the leading byte. -/

mutual

def utf8Decode : List ℕ → Option (List Char)
  | [] => some []
  | b0 :: rest =>
    if b0 < 0x80 then (utf8Decode rest).bind (fun tl => some (Char.ofNat b0 :: tl))
    else if b0 < 0xc2 then none
    else if b0 < 0xe0 then utf8DecodeTwo b0 rest
    else if b0 < 0xf0 then utf8DecodeThree b0 rest
    else if b0 < 0xf5 then utf8DecodeFour b0 rest
    else none

def utf8DecodeTwo (b0 : ℕ) : List ℕ → Option (List Char)
  | b1 :: rest =>
    if 0x80 ≤ b1 ∧ b1 < 0xc0 then
      (utf8Decode rest).bind
        (fun tl => some (Char.ofNat ((b0 - 0xc0) * 64 + (b1 - 0x80)) :: tl))
    else none
  | [] => none

def utf8DecodeThree (b0 : ℕ) : List ℕ → Option (List Char)
  | b1 :: b2 :: rest =>
    if (0x80 ≤ b1 ∧ b1 < 0xc0) ∧ (0x80 ≤ b2 ∧ b2 < 0xc0)
        ∧ 0x800 ≤ (b0 - 0xe0) * 4096 + (b1 - 0x80) * 64 + (b2 - 0x80)
        ∧ ((b0 - 0xe0) * 4096 + (b1 - 0x80) * 64 + (b2 - 0x80) < 0xd800
           ∨ 0xdfff < (b0 - 0xe0) * 4096 + (b1 - 0x80) * 64 + (b2 - 0x80)) then
      (utf8Decode rest).bind
        (fun tl => some (Char.ofNat ((b0 - 0xe0) * 4096 + (b1 - 0x80) * 64
          + (b2 - 0x80)) :: tl))
    else none
  | _ => none

def utf8DecodeFour (b0 : ℕ) : List ℕ → Option (List Char)
  | b1 :: b2 :: b3 :: rest =>
    if (0x80 ≤ b1 ∧ b1 < 0xc0) ∧ (0x80 ≤ b2 ∧ b2 < 0xc0) ∧ (0x80 ≤ b3 ∧ b3 < 0xc0)
        ∧ 0x10000 ≤ (b0 - 0xf0) * 262144 + (b1 - 0x80) * 4096 + (b2 - 0x80) * 64
            + (b3 - 0x80)
        ∧ (b0 - 0xf0) * 262144 + (b1 - 0x80) * 4096 + (b2 - 0x80) * 64
            + (b3 - 0x80) < 0x110000 then
      (utf8Decode rest).bind
        (fun tl => some (Char.ofNat ((b0 - 0xf0) * 262144 + (b1 - 0x80) * 4096
          + (b2 - 0x80) * 64 + (b3 - 0x80)) :: tl))
    else none
  | _ => none

end

/-- The characters `encodeURIComponent` leaves unescaped
(`A-Z a-z 0-9 - _ . ! ~ *` apostrophe `( )`, by code point). -/
def uriUnreserved (c : Char) : Bool :=
  (65 ≤ c.toNat && c.toNat ≤ 90) || (97 ≤ c.toNat && c.toNat ≤ 122)
    || (48 ≤ c.toNat && c.toNat ≤ 57)
    || c = '-' || c = '_' || c = '.' || c = '!' || c = '~' || c = '*'
    || c = Char.ofNat 39 || c = '(' || c = ')'

/-- Uppercase hexadecimal digit (as `encodeURIComponent` emits). -/
def hexDigitUpper (n : ℕ) : Char :=
  if n < 10 then Char.ofNat (n + 48) else Char.ofNat (n - 10 + 65)

/-- `%XX` escape of one byte. -/
def percentEncodeByte (b : ℕ) : List Char :=
  ['%', hexDigitUpper (b / 16), hexDigitUpper (b % 16)]

/-- `encodeURIComponent(s)` (total: Lean `Char` has no lone surrogates). -/
def encodeURIComponent (s : List Char) : List Char :=
  s.flatMap (fun c =>
    if uriUnreserved c then [c]
    else (utf8EncodeChar c).flatMap percentEncodeByte)

/-- The byte stream read by `decodeURIComponent`: each `%XX` is a byte,
any other character contributes its own UTF-8 bytes. -/
def percentToBytes : List Char → Option (List ℕ)
  | [] => some []
  | c :: rest =>
    if c = '%' then
      match rest with
      | a :: b :: rest' => do
        let ha ← hexVal a
        let hb ← hexVal b
        pure ((ha * 16 + hb) :: (← percentToBytes rest'))
      | _ => none
    else do pure (utf8EncodeChar c ++ (← percentToBytes rest))

/-- `decodeURIComponent(s)` (`none` models a thrown `URIError`). -/
def decodeURIComponent (s : List Char) : Option (List Char) :=
  (percentToBytes s).bind utf8Decode

/-! ### `btoa` / `atob` (base64 over latin-1 code points) -/

/-- The base64 alphabet character of a sextet. -/
def b64Char (n : ℕ) : Char :=
  if n < 26 then Char.ofNat (n + 65)
  else if n < 52 then Char.ofNat (n - 26 + 97)
  else if n < 62 then Char.ofNat (n - 52 + 48)
  else if n = 62 then '+'
  else '/'

/-- Base64 encoding of a byte list, with `=` padding. -/
def b64EncodeBytes : List ℕ → List Char
  | [] => []
  | [a] => [b64Char (a / 4), b64Char (a % 4 * 16), '=', '=']
  | [a, b] => [b64Char (a / 4), b64Char (a % 4 * 16 + b / 16), b64Char (b % 16 * 4), '=']
  | a :: b :: c :: rest =>
    b64Char (a / 4) :: b64Char (a % 4 * 16 + b / 16) :: b64Char (b % 16 * 4 + c / 64)
      :: b64Char (c % 64) :: b64EncodeBytes rest

/-- `btoa(s)`: fails (throws) when a character is outside latin-1. -/
def btoa (s : List Char) : Option (List Char) :=
  if s.all (fun c => c.toNat < 256) then some (b64EncodeBytes (s.map Char.toNat))
  else none

/-- Sextet value of a base64 alphabet character (code-point ranges). -/
def b64Val (c : Char) : Option ℕ :=
  if 65 ≤ c.toNat ∧ c.toNat ≤ 90 then some (c.toNat - 65)
  else if 97 ≤ c.toNat ∧ c.toNat ≤ 122 then some (c.toNat - 97 + 26)
  else if 48 ≤ c.toNat ∧ c.toNat ≤ 57 then some (c.toNat - 48 + 52)
  else if c = '+' then some 62
  else if c = '/' then some 63
  else none

/-- Base64 decoding in chunks of four, accepting `=` padding in the final
chunk only. -/
def b64DecodeChunks : List Char → Option (List ℕ)
  | [] => some []
  | a :: b :: c :: d :: rest =>
    if rest = [] ∧ c = '=' ∧ d = '=' then do
      let va ← b64Val a
      let vb ← b64Val b
      pure [va * 4 + vb / 16]
    else if rest = [] ∧ d = '=' then do
      let va ← b64Val a
      let vb ← b64Val b
      let vc ← b64Val c
      pure [va * 4 + vb / 16, vb % 16 * 16 + vc / 4]
    else do
      let va ← b64Val a
      let vb ← b64Val b
      let vc ← b64Val c
      let vd ← b64Val d
      pure ((va * 4 + vb / 16) :: (vb % 16 * 16 + vc / 4) :: ((vc % 4 * 64 + vd)
        :: (← b64DecodeChunks rest)))
  | _ => none

/-- `atob(s)` (`none` models a thrown `InvalidCharacterError`). -/
def atob (s : List Char) : Option (List Char) :=
  (b64DecodeChunks s).map (fun bs => bs.map Char.ofNat)

/-! ## Storage Adapter (`saveToStorage` / `loadFromStorage`,
src/utils.js lines 181-242).  `localStorage` is a raw-string key-value
store; `Date.now()` is an explicit argument; a quota error thrown by
`localStorage.setItem` is the `setItemThrows` flag (the only fallible
step besides the encodings, which are `Option`-valued above). -/

/-- The raw `localStorage` content. -/
def RawStore : Type := List Char → Option (List Char)

def rawSet (store : RawStore) (key raw : List Char) : RawStore :=
  fun k => if k = key then some raw else store k

def rawRemove (store : RawStore) (key : List Char) : RawStore :=
  fun k => if k = key then none else store k

/-- JS `typeof data === 'object'` on a JSON value
(`null`, arrays and objects). -/
def jsTypeofObject : JValue → Bool
  | .jnull => true
  | .jarr _ => true
  | .jobj _ => true
  | _ => false

/-- Field access `v.name` on a parsed JSON value (`none` = `undefined`). -/
def jsField (v : JValue) (name : List Char) : Option JValue :=
  match v with
  | .jobj fs => fs.lookup name
  | _ => none

/-- The `{value, timestamp, version}` object `saveToStorage` stores. -/
def storageEnvelope (dataToSave : JValue) (now : ℤ) : JValue :=
  .jobj
    [ ((("value").toList), dataToSave),
      ((("timestamp").toList), .jnum now),
      ((("version").toList), .jstr (("1.0").toList)) ]

/-- `saveToStorage(key, data, useCompression)` at time `now`:
returns the boolean result and the store after the call. -/
def saveToStorage (store : RawStore) (key : List Char) (data : JValue)
    (useCompression : Bool) (now : ℤ) (setItemThrows : Bool) : Bool × RawStore :=
  let attempt : Option RawStore := do
    let dataToSave ←
      if useCompression && jsTypeofObject data then
        let jsonStr := stringify data
        if jsonStr.length > 5000 then
          (btoa (encodeURIComponent jsonStr)).map JValue.jstr
        else pure data
      else pure data
    let storageData : JValue := storageEnvelope dataToSave now
    if setItemThrows then none
    else pure (rawSet store key (stringify storageData))
  match attempt with
  | some st => (true, st)
  | none => (false, store)

/-- The 30-day `EXPIRY_TIME` of `loadFromStorage`, in milliseconds. -/
def EXPIRY_TIME : ℤ := 30 * 24 * 60 * 60 * 1000

/-- The `^[A-Za-z0-9+/=]+$` test of the compression heuristic. -/
def base64Shape (s : List Char) : Bool :=
  !s.isEmpty && s.all (fun c =>
    ('A' ≤ c && c ≤ 'Z') || ('a' ≤ c && c ≤ 'z') || ('0' ≤ c && c ≤ '9')
      || c = '+' || c = '/' || c = '=')

/-- `loadFromStorage(key)` at time `now`: the returned value (`none` =
`null`/`undefined`) and the store after the lazy purge. -/
def loadFromStorage (store : RawStore) (key : List Char) (now : ℤ) :
    Option JValue × RawStore :=
  match store key with
  | none => (none, store)
  | some raw =>
    if raw.isEmpty then (none, store)
    else
      match jsonParse raw with
      | none => (none, store)
      | some parsed =>
        let expired :=
          match jsField parsed (("timestamp").toList) with
          | some (.jnum t) => decide (now - t > EXPIRY_TIME)
          | _ => false
        if expired then (none, rawRemove store key)
        else
          match jsField parsed (("value").toList) with
          | none => (none, store)
          | some data =>
            match data with
            | .jstr s =>
              if s.length > 100 && base64Shape s then
                match (atob s).bind (fun t => (decodeURIComponent t).bind jsonParse) with
                | some decoded => (some decoded, store)
                | none => (some (.jstr s), store)
              else (some (.jstr s), store)
            | _ => (some data, store)


/-! # Theorems -/

mutual

theorem beqJIffEq : ∀ a b : JValue, beqJ a b = true ↔ a = b
  | .jnull, b => by cases b <;> simp [beqJ]
  | .jbool x, b => by cases b <;> simp [beqJ]
  | .jnum x, b => by cases b <;> simp [beqJ]
  | .jstr x, b => by cases b <;> simp [beqJ]
  | .jarr xs, b => by
    cases b <;> simp [beqJ]
    exact beqJArrIffEq xs _
  | .jobj fs, b => by
    cases b <;> simp [beqJ]
    exact beqJObjIffEq fs _

theorem beqJArrIffEq : ∀ a b : List JValue, beqJArr a b = true ↔ a = b
  | [], b => by cases b <;> simp [beqJArr]
  | x :: xs, b => by
    cases b with
    | nil => simp [beqJArr]
    | cons y ys =>
      simp only [beqJArr, Bool.and_eq_true, List.cons.injEq]
      exact and_congr (beqJIffEq x y) (beqJArrIffEq xs ys)

theorem beqJObjIffEq : ∀ a b : List (List Char × JValue), beqJObj a b = true ↔ a = b
  | [], b => by cases b <;> simp [beqJObj]
  | x :: xs, b => by
    cases b with
    | nil => simp [beqJObj]
    | cons y ys =>
      simp only [beqJObj, Bool.and_eq_true, List.cons.injEq, beq_iff_eq]
      refine and_congr (and_congr Iff.rfl (beqJIffEq x.2 y.2)) (beqJObjIffEq xs ys) |>.trans ?_
      constructor
      · rintro ⟨⟨h1, h2⟩, h3⟩
        exact ⟨Prod.ext h1 h2, h3⟩
      · rintro ⟨h, h3⟩
        exact ⟨⟨congrArg Prod.fst h, congrArg Prod.snd h⟩, h3⟩

end

instance : DecidableEq JValue := fun a b =>
  decidable_of_iff (beqJ a b = true) (beqJIffEq a b)

/-! ## C2: intent classification -/

/-- C2 (counterexample): `classify("my system is slow and I need to
optimize")` returns `general`, not `system_optimization`: the source's
keyword sets are Persian words, none of which occurs in the English
query. -/
theorem classifyIntent_english_counterexample :
    classifyIntent (("my system is slow and I need to optimize").toList)
      = ("general").toList
    ∧ ("general").toList ≠ ("system_optimization").toList := by
  decide

/-- C2 (amended): the classifier tests the optimization keyword set
(`بهینه`, `سرعت`, `کند`) first, so any query containing one of those
keywords (after lowercasing) classifies as `system_optimization`
regardless of other matches, and `classify("hello")` returns `general`. -/
theorem classifyIntent_priority :
    (∀ q : List Char,
      (includes (toLowerCase q) (("بهینه").toList)
        || includes (toLowerCase q) (("سرعت").toList)
        || includes (toLowerCase q) (("کند").toList)) = true →
      classifyIntent q = ("system_optimization").toList)
    ∧ classifyIntent (("hello").toList) = ("general").toList := by
  constructor
  · intro q h
    simp only [classifyIntent, h, if_true]
  · decide

/-- C2 witness: the Persian query "سیستم من کند است" (my system is slow)
contains the keyword `کند` and classifies as `system_optimization`. -/
theorem classifyIntent_priority_witness :
    (includes (toLowerCase (("سیستم من کند است").toList)) (("بهینه").toList)
      || includes (toLowerCase (("سیستم من کند است").toList)) (("سرعت").toList)
      || includes (toLowerCase (("سیستم من کند است").toList)) (("کند").toList)) = true
    ∧ classifyIntent (("سیستم من کند است").toList) = ("system_optimization").toList :=
  ⟨by decide, classifyIntent_priority.1 (("سیستم من کند است").toList) (by decide)⟩

/-! ## C1: profile activation -/

/-- `List.lookup` succeeds exactly on the stored keys. -/
theorem lookupIsSomeKeys {α : Type} (l : List (List Char × α)) (k : List Char) :
    (l.lookup k).isSome ↔ k ∈ l.map (fun kp => kp.1) := by
  simp only [List.lookup_isSome_iff, List.mem_map, beq_iff_eq]
  constructor
  · rintro ⟨p, hp, hk⟩
    exact ⟨p, hp, hk.symm⟩
  · rintro ⟨p, hp, hk⟩
    exact ⟨p, hp, hk.symm⟩

/-- After deactivate-all-then-activate-`pid`, the active keys are the
occurrences of `pid` among the registry keys. -/
theorem activeKeys_of_toggle (l : List (List Char × Profile)) (pid : List Char) :
    ((l.map (fun kp =>
        if kp.1 = pid then (kp.1, { kp.2 with active := true })
        else (kp.1, { kp.2 with active := false }))).filter
          (fun kp => kp.2.active)).map (fun kp => kp.1)
      = (l.map (fun kp => kp.1)).filter (fun k => k = pid) := by
  induction l with
  | nil => simp
  | cons kp t ih =>
    by_cases h : kp.1 = pid
    · simp [h, List.filter, ih]
    · simp [h, List.filter, ih]

/-- On a duplicate-free list containing `pid`, filtering for `pid` leaves
exactly one occurrence. -/
theorem filter_eq_single (l : List (List Char)) (pid : List Char)
    (hnd : l.Nodup) (hm : pid ∈ l) : l.filter (fun k => k = pid) = [pid] := by
  induction l with
  | nil => cases hm
  | cons a t ih =>
    rcases List.mem_cons.mp hm with h | h
    · subst h
      have hnil : t.filter (fun k => k = pid) = [] := by
        rw [List.filter_eq_nil_iff]
        intro b hb
        simp only [decide_eq_true_eq]
        exact fun hba => (List.nodup_cons.mp hnd).1 (hba ▸ hb)
      simp [List.filter, hnil]
    · have hne : a ≠ pid := fun hap => (List.nodup_cons.mp hnd).1 (hap ▸ h)
      have : (decide (a = pid)) = false := decide_eq_false hne
      simp [List.filter, this, ih (List.nodup_cons.mp hnd).2 h]

/-- C1 (amended): `activateProfile` on a registry with duplicate-free keys.
If the id is known, afterwards exactly one profile is flagged active — the
requested one — and it is persisted as the selected profile.  If the id is
unknown, the call still deactivates every profile (the previously active
profile does not stay active) and leaves the selected id unchanged; the
function returns `undefined`, not a boolean. -/
theorem activateProfile_spec (st : ProfileState) (pid : List Char)
    (hnd : (st.profiles.map (fun kp => kp.1)).Nodup) :
    (pid ∈ st.profiles.map (fun kp => kp.1) →
      ((activateProfile st pid).profiles.filter
          (fun kp => kp.2.active)).map (fun kp => kp.1) = [pid]
      ∧ (activateProfile st pid).selectedProfile = pid)
    ∧ (pid ∉ st.profiles.map (fun kp => kp.1) →
      (∀ kp ∈ (activateProfile st pid).profiles, kp.2.active = false)
      ∧ (activateProfile st pid).selectedProfile = st.selectedProfile) := by
  have hkeys : ((st.profiles.map (fun kp =>
      (kp.1, { kp.2 with active := false }))).map (fun kp => kp.1))
      = st.profiles.map (fun kp => kp.1) := by
    simp [List.map_map, Function.comp]
  constructor
  · intro hmem
    have hsome : ((st.profiles.map (fun kp =>
        (kp.1, { kp.2 with active := false }))).lookup pid).isSome := by
      rw [lookupIsSomeKeys, hkeys]
      exact hmem
    unfold activateProfile
    rw [if_pos hsome]
    refine ⟨?_, rfl⟩
    rw [List.map_map]
    have hcomp : ((fun kp : List Char × Profile =>
        if kp.1 = pid then (kp.1, { kp.2 with active := true }) else kp)
          ∘ (fun kp : List Char × Profile => (kp.1, { kp.2 with active := false })))
        = (fun kp : List Char × Profile =>
          if kp.1 = pid then (kp.1, { kp.2 with active := true })
          else (kp.1, { kp.2 with active := false })) := by
      funext kp
      by_cases h : kp.1 = pid <;> simp [h]
    rw [hcomp, activeKeys_of_toggle, filter_eq_single _ _ hnd hmem]
  · intro hnot
    have hnone : ((st.profiles.map (fun kp =>
        (kp.1, { kp.2 with active := false }))).lookup pid).isSome = false := by
      rw [Bool.eq_false_iff]
      intro hs
      exact hnot (by rw [← hkeys]; exact (lookupIsSomeKeys _ _).mp hs)
    unfold activateProfile
    rw [if_neg (by simp [hnone])]
    refine ⟨?_, rfl⟩
    intro kp hkp
    rcases List.mem_map.mp hkp with ⟨x, _, hx⟩
    rw [← hx]

/-- C1 witness: activating the known id `gaming` on the initial registry
leaves exactly `gaming` active and selected. -/
theorem activateProfile_spec_witness :
    ((activateProfile initialProfileState (("gaming").toList)).profiles.filter
        (fun kp => kp.2.active)).map (fun kp => kp.1) = [("gaming").toList]
    ∧ (activateProfile initialProfileState (("gaming").toList)).selectedProfile
        = ("gaming").toList :=
  (activateProfile_spec initialProfileState (("gaming").toList) (by decide)).1 (by decide)

/-- C1 (counterexample): activating the unknown id `nonexistent` does not
leave the registry unchanged — the previously active `default` profile is
deactivated (and nothing is returned, rather than `false`). -/
theorem activateProfile_unknown_counterexample :
    (initialProfileState.profiles.lookup (("nonexistent").toList)) = none
    ∧ (initialProfileState.profiles.lookup (("default").toList)).map Profile.active
        = some true
    ∧ ((activateProfile initialProfileState
        (("nonexistent").toList)).profiles.lookup (("default").toList)).map Profile.active
        = some false := by
  decide

/-! ## C7: alert evaluation -/

/-- C7: alert evaluation is a stateless function of the snapshot: a
warning-severity CPU-usage alert fires iff `cpu.usage > 85`, a
critical-severity RAM alert iff `ram.usage > 90`, a warning-severity
temperature alert iff `cpu.temperature > 75`, and nothing else is ever
emitted; on the snapshot with cpu usage 90, temperature 50 and ram usage
50 exactly the one CPU-usage warning is emitted. -/
theorem checkAlerts_spec :
    (∀ s : Snapshot,
      (cpuUsageAlert ∈ checkAlerts s ↔ s.cpu.usage > 85)
      ∧ (ramUsageAlert ∈ checkAlerts s ↔ s.ram.usage > 90)
      ∧ (cpuTempAlert ∈ checkAlerts s ↔ s.cpu.temperature > 75)
      ∧ (∀ a ∈ checkAlerts s, a = cpuUsageAlert ∨ a = ramUsageAlert ∨ a = cpuTempAlert))
    ∧ checkAlerts
        { cpu := { usage := 90, temperature := 50, cores := 8, frequency := 32/10 },
          ram := { usage := 50, total := 16, used := 8, free := 8, cache := 2 } }
        = [cpuUsageAlert]
    ∧ cpuUsageAlert.severity = ("warning").toList
    ∧ ramUsageAlert.severity = ("critical").toList
    ∧ cpuTempAlert.severity = ("warning").toList := by
  have d1 : cpuUsageAlert ≠ ramUsageAlert := by decide
  have d2 : cpuUsageAlert ≠ cpuTempAlert := by decide
  have d3 : ramUsageAlert ≠ cpuTempAlert := by decide
  refine ⟨fun s => ?_, by decide, by decide, by decide, by decide⟩
  by_cases h1 : s.cpu.usage > 85 <;> by_cases h2 : s.ram.usage > 90 <;>
    by_cases h3 : s.cpu.temperature > 75 <;>
    simp_all [checkAlerts, d1, d2, d3, d1.symm, d2.symm, d3.symm] <;> tauto

/-- C7 witness: on the claim's snapshot the CPU-usage alert is indeed a
member of the emitted list, obtained from the threshold `90 > 85`. -/
theorem checkAlerts_spec_witness :
    cpuUsageAlert ∈ checkAlerts
      { cpu := { usage := 90, temperature := 50, cores := 8, frequency := 32/10 },
        ram := { usage := 50, total := 16, used := 8, free := 8, cache := 2 } } :=
  (checkAlerts_spec.1
    { cpu := { usage := 90, temperature := 50, cores := 8, frequency := 32/10 },
      ram := { usage := 50, total := 16, used := 8, free := 8, cache := 2 } }).1.mpr
    (by norm_num)

/-! ## C4: chat history bound -/

/-- One `addEntry` call from a log within the cap: the result stays within
the cap, the new entry is first, and at the cap the oldest (last) entry is
the one dropped. -/
theorem addEntry_step (u r c : List Char) (now : ℤ) (rid : List Char)
    (h : List ChatEntry) (hle : h.length ≤ 100) :
    (addEntry u r c now rid h).length ≤ 100
    ∧ (addEntry u r c now rid h).head? = some (newChatEntry u r c now rid)
    ∧ (h.length = 100 →
        addEntry u r c now rid h = newChatEntry u r c now rid :: h.dropLast) := by
  unfold addEntry
  by_cases hgt : (newChatEntry u r c now rid :: h).length > 100
  · rw [if_pos hgt]
    have hne : h ≠ [] := by
      intro he
      rw [he] at hgt
      simp at hgt
    refine ⟨?_, ?_, fun _ => ?_⟩
    · simp only [List.length_dropLast, List.length_cons]
      omega
    · rcases h with _ | ⟨x, t⟩
      · cases hne rfl
      · simp [List.dropLast]
    · rcases h with _ | ⟨x, t⟩
      · cases hne rfl
      · simp [List.dropLast]
  · rw [if_neg hgt]
    simp only [List.length_cons, gt_iff_lt, not_lt] at hgt
    exact ⟨by simpa using hgt, rfl, fun h100 => by omega⟩

/-- C4: starting from any log of at most 100 entries, after any sequence
of `addEntry` calls the log still has at most 100 entries; each call puts
the new entry first and, when the cap is reached, drops the oldest. -/
theorem addEntry_spec :
    (∀ (calls : List (List Char × List Char × List Char × ℤ × List Char))
       (h0 : List ChatEntry), h0.length ≤ 100 →
      (calls.foldl (fun acc args =>
          addEntry args.1 args.2.1 args.2.2.1 args.2.2.2.1 args.2.2.2.2 acc) h0).length ≤ 100)
    ∧ (∀ (u r c : List Char) (now : ℤ) (rid : List Char) (h : List ChatEntry),
        h.length ≤ 100 →
        (addEntry u r c now rid h).head? = some (newChatEntry u r c now rid)
        ∧ (h.length = 100 →
            addEntry u r c now rid h = newChatEntry u r c now rid :: h.dropLast)) := by
  constructor
  · intro calls
    induction calls with
    | nil => intro h0 hle; simpa using hle
    | cons a t ih =>
      intro h0 hle
      exact ih _ (addEntry_step a.1 a.2.1 a.2.2.1 a.2.2.2.1 a.2.2.2.2 h0 hle).1
  · intro u r c now rid h hle
    exact ⟨(addEntry_step u r c now rid h hle).2.1, (addEntry_step u r c now rid h hle).2.2⟩

/-- C4 witness: one call on the empty log yields the singleton log headed
by the new entry. -/
theorem addEntry_spec_witness :
    (addEntry (("hi").toList) (("ok").toList) (("general").toList) 5 (("x").toList)
        []).head?
      = some (newChatEntry (("hi").toList) (("ok").toList) (("general").toList) 5
        (("x").toList))
    ∧ ([(newChatEntry (("hi").toList) (("ok").toList) (("general").toList) 5
        (("x").toList))] : List ChatEntry).length ≤ 100 :=
  ⟨(addEntry_spec.2 (("hi").toList) (("ok").toList) (("general").toList) 5 (("x").toList)
      [] (by decide)).1,
   by decide⟩

/-! ## C6: operation simulation log -/

/-- Every operation spec in the table has a nonempty step list. -/
theorem lookupOperation_steps_ne_nil (opType : List Char) :
    (lookupOperation opType).steps.length ≠ 0 := by
  unfold lookupOperation operationsTable
  split_ifs <;> decide

/-- C6: for every operation type, the resolved execution log has exactly
the configured number of steps (the baseline memory-optimization list for
unknown types), the `i`-th entry's progress is `(i+1)/stepCount*100`,
every entry but the last has status `in_progress`, and the last entry has
status `completed` and progress `100`. -/
theorem simulateSystemOperation_spec (opType : List Char) (tsO : ℕ → List Char)
    (rndO : ℕ → ℚ) :
    (simulateSystemOperation opType tsO rndO).log.length
        = (lookupOperation opType).steps.length
    ∧ (∀ i (hi : i < (simulateSystemOperation opType tsO rndO).log.length),
        ((simulateSystemOperation opType tsO rndO).log.get ⟨i, hi⟩).progress
            = ((i : ℚ) + 1) / ((simulateSystemOperation opType tsO rndO).log.length : ℚ) * 100
        ∧ ((simulateSystemOperation opType tsO rndO).log.get ⟨i, hi⟩).status
            = (if i + 1 = (simulateSystemOperation opType tsO rndO).log.length
               then ("completed").toList else ("in_progress").toList))
    ∧ (∃ e, (simulateSystemOperation opType tsO rndO).log.getLast? = some e
        ∧ e.status = ("completed").toList ∧ e.progress = 100) := by
  set n := (lookupOperation opType).steps.length with hn
  have hn0 : n ≠ 0 := lookupOperation_steps_ne_nil opType
  have hlen : (simulateSystemOperation opType tsO rndO).log.length = n := by
    simp [simulateSystemOperation, operationLog]
  have hget : ∀ i (hi : i < (simulateSystemOperation opType tsO rndO).log.length),
      (simulateSystemOperation opType tsO rndO).log.get ⟨i, hi⟩
        = { step := (lookupOperation opType).steps.getD i [],
            progress := ((i : ℚ) + 1) / (n : ℚ) * 100,
            timestamp := tsO i,
            status := if i = n - 1 then ("completed").toList
                      else ("in_progress").toList } := by
    intro i hi
    have hi' : i < n := by rw [← hlen]; exact hi
    show (operationLog (lookupOperation opType) tsO).get ⟨i, hi⟩
      = { step := (lookupOperation opType).steps.getD i [],
          progress := ((i : ℚ) + 1) / (n : ℚ) * 100,
          timestamp := tsO i,
          status := if i = n - 1 then ("completed").toList
                    else ("in_progress").toList }
    simp [operationLog, hi']
  refine ⟨hlen, fun i hi => ?_, ?_⟩
  · rw [hget i hi, hlen]
    have hi' : i < n := by rw [← hlen]; exact hi
    refine ⟨rfl, ?_⟩
    simp only
    congr 1
    apply propext
    omega
  · have hm1 : n - 1 < (simulateSystemOperation opType tsO rndO).log.length := by
      rw [hlen]; omega
    have he := hget (n - 1) hm1
    refine ⟨{ step := (lookupOperation opType).steps.getD (n - 1) [],
              progress := (((n - 1 : ℕ) : ℚ) + 1) / (n : ℚ) * 100,
              timestamp := tsO (n - 1),
              status := if n - 1 = n - 1 then ("completed").toList
                        else ("in_progress").toList }, ?_, ?_, ?_⟩
    · rw [List.getLast?_eq_getElem?]
      have hidx : (simulateSystemOperation opType tsO rndO).log.length - 1 = n - 1 := by
        rw [hlen]
      rw [hidx, List.getElem?_eq_getElem hm1]
      simpa [List.get_eq_getElem] using congrArg some he
    · simp
    · simp only [if_pos rfl]
      have hcast : ((n - 1 : ℕ) : ℚ) + 1 = (n : ℚ) := by
        have h1 : 1 ≤ n := by omega
        push_cast [h1]
        ring
      rw [hcast]
      field_simp

/-- C6 witness: for `security_scan` (5 steps) the fifth entry has
progress 100 and status `completed`. -/
theorem simulateSystemOperation_spec_witness :
    ((simulateSystemOperation (("security_scan").toList) (fun _ => []) (fun _ => 0)).log.get
        ⟨4, by decide⟩).progress
        = ((4 : ℚ) + 1) / (((simulateSystemOperation (("security_scan").toList)
            (fun _ => []) (fun _ => 0)).log.length : ℚ)) * 100
    ∧ ((simulateSystemOperation (("security_scan").toList) (fun _ => []) (fun _ => 0)).log.get
        ⟨4, by decide⟩).status
        = (if 4 + 1 = (simulateSystemOperation (("security_scan").toList)
            (fun _ => []) (fun _ => 0)).log.length
           then ("completed").toList else ("in_progress").toList) :=
  (simulateSystemOperation_spec (("security_scan").toList) (fun _ => []) (fun _ => 0)).2.1
    4 (by decide)

/-! ## C10: chart range filtering -/

/-- C10: `filterDataByTimeRange` returns a subsequence of its input
(order preserved, points unmodified) that keeps each point exactly as
often as the input contains it when the point lies within the lookback
window `now - x ≤ timeLimit` and never otherwise, and every tag other
than `1m`, `5m`, `1h`, `1d` behaves as the 60-second window. -/
theorem filterDataByTimeRange_spec (data : List DataPoint) (range : List Char)
    (now : ℤ) :
    (filterDataByTimeRange data range now).Sublist data
    ∧ (∀ p : DataPoint,
        (filterDataByTimeRange data range now).count p
          = if now - p.x ≤ timeLimitOf range then data.count p else 0)
    ∧ (range ≠ ("1m").toList → range ≠ ("5m").toList → range ≠ ("1h").toList →
        range ≠ ("1d").toList →
        filterDataByTimeRange data range now
          = filterDataByTimeRange data (("1m").toList) now) := by
  refine ⟨List.filter_sublist data, fun p => ?_, fun h1 h5 hh hd => ?_⟩
  · by_cases hp : now - p.x ≤ timeLimitOf range
    · rw [if_pos hp]
      apply List.count_filter
      simpa using hp
    · rw [if_neg hp]
      apply List.count_eq_zero_of_not_mem
      intro hmem
      exact hp (by simpa using (List.mem_filter.mp hmem).2)
  · unfold filterDataByTimeRange timeLimitOf
    rw [if_neg h1, if_neg h5, if_neg hh, if_neg hd, if_pos rfl]

/-- C10 witness: with an unknown tag `2m`, a 30-second-old point is kept
exactly once and a 90-second-old point is dropped, matching the `1m`
window. -/
theorem filterDataByTimeRange_spec_witness :
    (filterDataByTimeRange
        [{ x := 70000, y := 1 }, { x := 10000, y := 2 }] (("2m").toList) 100000).count
        ({ x := 70000, y := 1 } : DataPoint)
      = (if (100000 : ℤ) - 70000 ≤ timeLimitOf (("2m").toList)
         then ([{ x := 70000, y := 1 }, { x := 10000, y := 2 }] : List DataPoint).count
            { x := 70000, y := 1 } else 0)
    ∧ filterDataByTimeRange
        [{ x := 70000, y := 1 }, { x := 10000, y := 2 }] (("2m").toList) 100000
      = filterDataByTimeRange
        [{ x := 70000, y := 1 }, { x := 10000, y := 2 }] (("1m").toList) 100000 :=
  ⟨(filterDataByTimeRange_spec
      [{ x := 70000, y := 1 }, { x := 10000, y := 2 }] (("2m").toList) 100000).2.1
      { x := 70000, y := 1 },
   (filterDataByTimeRange_spec
      [{ x := 70000, y := 1 }, { x := 10000, y := 2 }] (("2m").toList) 100000).2.2
      (by decide) (by decide) (by decide) (by decide)⟩

/-! ## C5: chart data generation -/

/-- Rounding to one decimal stays inside `[lo, hi]` whenever `10*lo` and
`10*hi` are integers. -/
theorem roundTenth_bounds (q lo hi : ℚ) (a b : ℤ) (ha : (a : ℚ) = 10 * lo)
    (hb : (b : ℚ) = 10 * hi) (h1 : lo ≤ q) (h2 : q ≤ hi) :
    lo ≤ roundTenth q ∧ roundTenth q ≤ hi := by
  have hm1 : a ≤ round (10 * q) := by
    have : round ((a : ℚ)) ≤ round (10 * q) := by
      rw [round_eq, round_eq]
      exact Int.floor_mono (by linarith)
    simpa [round_intCast] using this
  have hm2 : round (10 * q) ≤ b := by
    have : round (10 * q) ≤ round ((b : ℚ)) := by
      rw [round_eq, round_eq]
      exact Int.floor_mono (by linarith)
    simpa [round_intCast] using this
  have hc1 : (a : ℚ) ≤ ((round (10 * q) : ℤ) : ℚ) := by exact_mod_cast hm1
  have hc2 : ((round (10 * q) : ℤ) : ℚ) ≤ (b : ℚ) := by exact_mod_cast hm2
  unfold roundTenth
  constructor <;> [linarith; linarith]

/-- The point generated for loop index `i`. -/
theorem generateChartData_getElem (count : ℕ) (minV maxV : ℚ) (type : List Char)
    (now : ℤ) (rnd : ℕ → ℚ) (sinO : ℚ → ℚ) (j : ℕ) (hj : j < count) :
    (generateChartData count minV maxV type now rnd sinO)[j]?
      = some { x := now - ((count - 1 - j : ℕ) : ℤ) * 1000,
               y := chartValue minV maxV type rnd sinO (count - 1 - j) } := by
  simp [generateChartData, hj]

/-- C5 (amended): unconditionally on the bounds, the series has one
point per tick with timestamps strictly ascending at exactly 1000 ms
spacing and the newest point (timestamp `now`) last; and whenever
`min ≤ max` and both bounds are integer multiples of one tenth (as the
source's defaults are), every generated value lies within `[min, max]`. -/
theorem generateChartData_spec (count : ℕ) (minV maxV : ℚ) (type : List Char)
    (now : ℤ) (rnd : ℕ → ℚ) (sinO : ℚ → ℚ) :
    (∀ a b : ℤ, (a : ℚ) = 10 * minV → (b : ℚ) = 10 * maxV → minV ≤ maxV →
      ∀ p ∈ generateChartData count minV maxV type now rnd sinO,
        minV ≤ p.y ∧ p.y ≤ maxV)
    ∧ (generateChartData count minV maxV type now rnd sinO).length = count
    ∧ (∀ j, j + 1 < count →
        ((generateChartData count minV maxV type now rnd sinO)[j]?).map
            (fun p => p.x + 1000)
          = ((generateChartData count minV maxV type now rnd sinO)[j+1]?).map
            (fun p => p.x))
    ∧ (0 < count →
        (generateChartData count minV maxV type now rnd sinO).getLast?.map
            (fun p => p.x) = some now) := by
  refine ⟨fun a b ha hb hmin p hp => ?_, by simp [generateChartData], fun j hj => ?_,
    fun hc => ?_⟩
  · rcases List.mem_map.mp hp with ⟨j, _, hfj⟩
    have hy : p.y = chartValue minV maxV type rnd sinO (count - 1 - j) := by
      rw [← hfj]
    rw [hy]
    unfold chartValue
    simp only
    apply roundTenth_bounds _ _ _ a b ha hb
    · exact le_max_left _ _
    · exact max_le hmin (min_le_left _ _)
  · rw [generateChartData_getElem count minV maxV type now rnd sinO j (by omega),
        generateChartData_getElem count minV maxV type now rnd sinO (j+1) hj]
    simp only [Option.map_some']
    congr 1
    have hsplit : (count - 1 - j : ℕ) = (count - 1 - (j + 1) : ℕ) + 1 := by omega
    rw [hsplit]
    push_cast
    ring
  · rw [List.getLast?_eq_getElem?]
    have hlen : (generateChartData count minV maxV type now rnd sinO).length = count := by
      simp [generateChartData]
    rw [hlen, generateChartData_getElem count minV maxV type now rnd sinO (count - 1)
        (by omega)]
    have hz : (count - 1 - (count - 1) : ℕ) = 0 := by omega
    rw [hz]
    simp

/-- C5 witness: for two ticks with the source's default bounds 20 and 90
(tenth-multiples via 200 and 900) all generated values are in range and
the timestamps step by one second up to `now = 0`. -/
theorem generateChartData_spec_witness :
    (((200 : ℤ) : ℚ) = 10 * 20 ∧ ((900 : ℤ) : ℚ) = 10 * 90 ∧ (20 : ℚ) ≤ 90)
    ∧ (∀ p ∈ generateChartData 2 20 90 (("cpu").toList) 0 (fun _ => 1/2) (fun _ => 0),
        (20 : ℚ) ≤ p.y ∧ p.y ≤ 90)
    ∧ (generateChartData 2 20 90 (("cpu").toList) 0 (fun _ => 1/2) (fun _ => 0)).length = 2
    ∧ (∀ j, j + 1 < 2 →
        ((generateChartData 2 20 90 (("cpu").toList) 0 (fun _ => 1/2) (fun _ => 0))[j]?).map
            (fun p => p.x + 1000)
          = ((generateChartData 2 20 90 (("cpu").toList) 0 (fun _ => 1/2)
              (fun _ => 0))[j+1]?).map (fun p => p.x))
    ∧ (0 < 2 →
        (generateChartData 2 20 90 (("cpu").toList) 0 (fun _ => 1/2)
            (fun _ => 0)).getLast?.map (fun p => p.x) = some 0) := by
  have h := generateChartData_spec 2 20 90 (("cpu").toList) 0 (fun _ => 1/2) (fun _ => 0)
  exact ⟨⟨by norm_num, by norm_num, by norm_num⟩,
    h.1 200 900 (by norm_num) (by norm_num) (by norm_num), h.2.1, h.2.2.1, h.2.2.2⟩

/-- C5 (counterexample): with `min = max = 0.25` (a pair with
`min ≤ max` that is not a tenth-multiple) and the `other` kind, the
single generated value is rounded to `0.3`, which lies outside
`[min, max]`. -/
theorem generateChartData_range_counterexample :
    ((1/4 : ℚ) ≤ (1/4 : ℚ))
    ∧ generateChartData 1 (1/4) (1/4) (("other").toList) 0 (fun _ => 1/2) (fun _ => 0)
        = [{ x := 0, y := 3/10 }]
    ∧ ¬((3/10 : ℚ) ≤ 1/4) := by
  refine ⟨by norm_num, ?_, by norm_num⟩
  have hy : chartValue (1/4) (1/4) (("other").toList) (fun _ => 1/2) (fun _ => 0) 0
      = 3/10 := by
    unfold chartValue
    simp only [eq_false (show ("other").toList ≠ ("cpu").toList by decide),
               eq_false (show ("other").toList ≠ ("ram").toList by decide),
               eq_false (show ("other").toList ≠ ("disk").toList by decide),
               eq_false (show ("other").toList ≠ ("network").toList by decide),
               if_false]
    norm_num
    unfold roundTenth
    rw [round_eq]
    norm_num
  show (List.range 1).map _ = _
  rw [show List.range 1 = [0] from rfl]
  simp only [List.map_cons, List.map_nil]
  rw [show (1 - 1 - 0 : ℕ) = 0 from rfl]
  rw [hy]
  norm_num

/-! ## C3: storage TTL -/

/-- C3 (counterexample): in the part_000 adapter, an item stored with
`ttl = 0` is still returned after a positive elapsed time (here 1000 ms),
because `item.ttl && ...` is falsy for `0`, so the expiry branch is
skipped; the claim expects absence. -/
theorem getLocalStorage_ttlZero_counterexample :
    (getLocalStorage (α := ℕ)
        (setLocalStorage (fun _ => none) (("k").toList) 7 (some 0) 1000)
        (("k").toList) 2000).1 = some 7
    ∧ (2000 : ℤ) - 1000 > 0 := by
  constructor
  · rfl
  · decide

/-! ## Roundtrip infrastructure: characters and digits -/

/-- `Char.ofNat` preserves the code point on valid scalar values. -/
theorem toNat_ofNat_valid {n : ℕ}
    (h : n < 0xd800 ∨ (0xdfff < n ∧ n < 0x110000)) :
    (Char.ofNat n).toNat = n := by
  unfold Char.ofNat
  rw [dif_pos h]
  simp [Char.ofNatAux, Char.toNat, UInt32.toNat]

/-- Two valid code points give equal characters only if equal. -/
theorem ofNat_inj_valid {m n : ℕ}
    (hm : m < 0xd800 ∨ (0xdfff < m ∧ m < 0x110000))
    (hn : n < 0xd800 ∨ (0xdfff < n ∧ n < 0x110000))
    (h : Char.ofNat m = Char.ofNat n) : m = n := by
  have := congrArg Char.toNat h
  rwa [toNat_ofNat_valid hm, toNat_ofNat_valid hn] at this

/-- Fuel irrelevance for the decimal digit expansion. -/
theorem natToCharsAux_irrel (n : ℕ) : ∀ fuel fuel', n < fuel → n < fuel' →
    natToCharsAux fuel n = natToCharsAux fuel' n := by
  induction n using Nat.strong_induction_on with
  | _ n ih =>
    intro fuel fuel' hf hf'
    match fuel, fuel' with
    | f + 1, f' + 1 =>
      show natToCharsAux (f + 1) n = natToCharsAux (f' + 1) n
      unfold natToCharsAux
      by_cases h : n < 10
      · rw [if_pos h, if_pos h]
      · rw [if_neg h, if_neg h]
        have hd : n / 10 < n := Nat.div_lt_self (by omega) (by omega)
        rw [ih (n / 10) hd f f' (by omega) (by omega)]

/-- Unfolding equation for `natToChars`. -/
theorem natToChars_eq (n : ℕ) :
    natToChars n = if n < 10 then [Char.ofNat (n + 48)]
      else natToChars (n / 10) ++ [Char.ofNat (n % 10 + 48)] := by
  by_cases h : n < 10
  · rw [if_pos h]
    show natToCharsAux (n + 1) n = _
    conv_lhs => unfold natToCharsAux
    rw [if_pos h]
  · rw [if_neg h]
    show natToCharsAux (n + 1) n = _
    have hstep : natToCharsAux (n + 1) n
        = natToCharsAux n (n / 10) ++ [Char.ofNat (n % 10 + 48)] := by
      conv_lhs => unfold natToCharsAux
      rw [if_neg h]
    rw [hstep]
    congr 1
    exact natToCharsAux_irrel (n / 10) n (n / 10 + 1)
      (Nat.div_lt_self (by omega) (by omega)) (by omega)

/-- Every character of a decimal expansion is a digit. -/
theorem natToChars_digits (n : ℕ) : ∀ c ∈ natToChars n, isDigitC c = true := by
  induction n using Nat.strong_induction_on with
  | _ n ih =>
    rw [natToChars_eq]
    by_cases h : n < 10
    · rw [if_pos h]
      intro c hc
      rcases List.mem_singleton.mp hc with rfl
      have ht : (Char.ofNat (n + 48)).toNat = n + 48 :=
        toNat_ofNat_valid (Or.inl (by omega))
      simp [isDigitC, ht]
      omega
    · rw [if_neg h]
      intro c hc
      rcases List.mem_append.mp hc with hc | hc
      · exact ih (n / 10) (Nat.div_lt_self (by omega) (by omega)) c hc
      · rcases List.mem_singleton.mp hc with rfl
        have ht : (Char.ofNat (n % 10 + 48)).toNat = n % 10 + 48 :=
          toNat_ofNat_valid (Or.inl (by omega))
        simp [isDigitC, ht]
        omega

/-- A decimal expansion is never empty. -/
theorem natToChars_ne_nil (n : ℕ) : natToChars n ≠ [] := by
  rw [natToChars_eq]
  by_cases h : n < 10
  · rw [if_pos h]; simp
  · rw [if_neg h]; simp

/-- `parseDigitsAux` walks through a leading all-digit block. -/
theorem parseDigitsAux_append (a : List Char) (ha : ∀ c ∈ a, isDigitC c = true) :
    ∀ (rest : List Char) (acc : ℕ),
      parseDigitsAux (a ++ rest) acc
        = parseDigitsAux rest (a.foldl (fun acc c => acc * 10 + (c.toNat - 48)) acc) := by
  induction a with
  | nil => intro rest acc; rfl
  | cons c t ih =>
    intro rest acc
    have hc : isDigitC c = true := ha c (List.mem_cons_self c t)
    show parseDigitsAux (c :: (t ++ rest)) acc
      = parseDigitsAux rest (List.foldl (fun acc c => acc * 10 + (c.toNat - 48)) acc (c :: t))
    rw [List.foldl_cons]
    have hstep : parseDigitsAux (c :: (t ++ rest)) acc
        = parseDigitsAux (t ++ rest) (acc * 10 + (c.toNat - 48)) := by
      conv_lhs => unfold parseDigitsAux
      rw [if_pos hc]
    rw [hstep]
    exact ih (fun d hd => ha d (List.mem_cons_of_mem c hd)) rest _

/-- `parseDigitsAux` stops at a non-digit (or the end). -/
theorem parseDigitsAux_stop (rest : List Char)
    (h : ∀ c, rest.head? = some c → isDigitC c = false) (acc : ℕ) :
    parseDigitsAux rest acc = (acc, rest) := by
  cases rest with
  | nil => rfl
  | cons c t =>
    unfold parseDigitsAux
    rw [if_neg (by rw [h c rfl]; simp)]

/-- Folding the digit step over a decimal expansion recovers the number. -/
theorem foldl_natToChars (n : ℕ) : ∀ acc : ℕ,
    (natToChars n).foldl (fun acc c => acc * 10 + (c.toNat - 48)) acc
      = acc * 10 ^ (natToChars n).length + n := by
  induction n using Nat.strong_induction_on with
  | _ n ih =>
    intro acc
    rw [natToChars_eq]
    by_cases h : n < 10
    · rw [if_pos h]
      have ht : (Char.ofNat (n + 48)).toNat = n + 48 :=
        toNat_ofNat_valid (Or.inl (by omega))
      simp [ht]
    · rw [if_neg h]
      rw [List.foldl_append]
      rw [ih (n / 10) (Nat.div_lt_self (by omega) (by omega)) acc]
      have ht : (Char.ofNat (n % 10 + 48)).toNat = n % 10 + 48 :=
        toNat_ofNat_valid (Or.inl (by omega))
      simp only [List.foldl_cons, List.foldl_nil, ht, List.length_append,
        List.length_cons, List.length_nil, pow_succ, Nat.add_sub_cancel]
      have hmod := Nat.div_add_mod n 10
      ring_nf
      omega

/-- Parsing the decimal expansion of `n` followed by a non-digit
recovers `n` exactly. -/
theorem parseDigitsAux_natToChars (n : ℕ) (rest : List Char)
    (h : ∀ c, rest.head? = some c → isDigitC c = false) :
    parseDigitsAux (natToChars n ++ rest) 0 = (n, rest) := by
  rw [parseDigitsAux_append (natToChars n) (natToChars_digits n) rest 0,
      parseDigitsAux_stop rest h, foldl_natToChars n 0]
  simp

/-! ## Roundtrip infrastructure: JSON string literals -/

/-- `hexVal` inverts `hexDigit` on sixteen values. -/
theorem hexVal_hexDigit : ∀ m : ℕ, m < 16 → hexVal (hexDigit m) = some m := by
  decide

/-- `hexVal` inverts `hexDigitUpper` on sixteen values. -/
theorem hexVal_hexDigitUpper : ∀ m : ℕ, m < 16 → hexVal (hexDigitUpper m) = some m := by
  decide

/-- Step equation: a `\uXXXX` escape at the head of a string body. -/
theorem parseStrBody_uStep (a b c2 d : Char) (L : List Char) :
    parseStrBody ('\\' :: 'u' :: a :: b :: c2 :: d :: L)
      = ((hexVal a).bind (fun ha =>
          (hexVal b).bind (fun hb =>
          (hexVal c2).bind (fun hc =>
          (hexVal d).bind (fun hd =>
          (if ((ha * 16 + hb) * 16 + hc) * 16 + hd < 0xd800
              ∨ (0xdfff < ((ha * 16 + hb) * 16 + hc) * 16 + hd
                  ∧ ((ha * 16 + hb) * 16 + hc) * 16 + hd < 0x110000) then
            (parseStrBody L).bind (fun p =>
              some (Char.ofNat (((ha * 16 + hb) * 16 + hc) * 16 + hd) :: p.1, p.2))
          else none)))))) := rfl

/-- Step equation: an unescaped printable character at the head. -/
theorem parseStrBody_plainStep (c : Char) (L : List Char) (hc1 : ¬c = '"')
    (hc2 : ¬c = '\\') (hc3 : ¬c.toNat < 32) :
    parseStrBody (c :: L) = (parseStrBody L).bind (fun p => some (c :: p.1, p.2)) := by
  conv_lhs => unfold parseStrBody
  rw [if_neg hc1, if_neg hc2, if_neg hc3]
  rfl

/-- `parseStrBody` undoes `escapeChar` up to the closing quote. -/
theorem parseStrBody_escape (s : List Char) : ∀ rest : List Char,
    parseStrBody (s.flatMap escapeChar ++ ('"' :: rest)) = some (s, rest) := by
  induction s with
  | nil =>
    intro rest
    simp only [List.flatMap_nil, List.nil_append]
    unfold parseStrBody
    rw [if_pos rfl]
  | cons c t ih =>
    intro rest
    rw [List.flatMap_cons, List.append_assoc]
    show parseStrBody (escapeChar c ++ (t.flatMap escapeChar ++ ('"' :: rest)))
      = some (c :: t, rest)
    by_cases h1 : c = '"'
    · subst h1
      show parseStrBody ('\\' :: '"' :: (t.flatMap escapeChar ++ ('"' :: rest))) = _
      rw [show ∀ L, parseStrBody ('\\' :: '"' :: L)
          = (parseStrBody L).bind (fun p => some ('"' :: p.1, p.2)) from fun L => rfl,
        ih rest]
      rfl
    by_cases h2 : c = '\\'
    · subst h2
      show parseStrBody ('\\' :: '\\' :: (t.flatMap escapeChar ++ ('"' :: rest))) = _
      rw [show ∀ L, parseStrBody ('\\' :: '\\' :: L)
          = (parseStrBody L).bind (fun p => some ('\\' :: p.1, p.2)) from fun L => rfl,
        ih rest]
      rfl
    by_cases h3 : c = Char.ofNat 8
    · subst h3
      show parseStrBody ('\\' :: 'b' :: (t.flatMap escapeChar ++ ('"' :: rest))) = _
      rw [show ∀ L, parseStrBody ('\\' :: 'b' :: L)
          = (parseStrBody L).bind (fun p => some (Char.ofNat 8 :: p.1, p.2)) from fun L => rfl,
        ih rest]
      rfl
    by_cases h4 : c = Char.ofNat 9
    · subst h4
      show parseStrBody ('\\' :: 't' :: (t.flatMap escapeChar ++ ('"' :: rest))) = _
      rw [show ∀ L, parseStrBody ('\\' :: 't' :: L)
          = (parseStrBody L).bind (fun p => some (Char.ofNat 9 :: p.1, p.2)) from fun L => rfl,
        ih rest]
      rfl
    by_cases h5 : c = Char.ofNat 10
    · subst h5
      show parseStrBody ('\\' :: 'n' :: (t.flatMap escapeChar ++ ('"' :: rest))) = _
      rw [show ∀ L, parseStrBody ('\\' :: 'n' :: L)
          = (parseStrBody L).bind (fun p => some (Char.ofNat 10 :: p.1, p.2)) from fun L => rfl,
        ih rest]
      rfl
    by_cases h6 : c = Char.ofNat 12
    · subst h6
      show parseStrBody ('\\' :: 'f' :: (t.flatMap escapeChar ++ ('"' :: rest))) = _
      rw [show ∀ L, parseStrBody ('\\' :: 'f' :: L)
          = (parseStrBody L).bind (fun p => some (Char.ofNat 12 :: p.1, p.2)) from fun L => rfl,
        ih rest]
      rfl
    by_cases h7 : c = Char.ofNat 13
    · subst h7
      show parseStrBody ('\\' :: 'r' :: (t.flatMap escapeChar ++ ('"' :: rest))) = _
      rw [show ∀ L, parseStrBody ('\\' :: 'r' :: L)
          = (parseStrBody L).bind (fun p => some (Char.ofNat 13 :: p.1, p.2)) from fun L => rfl,
        ih rest]
      rfl
    by_cases h8 : c.toNat < 32
    · have he : escapeChar c
          = ['\\', 'u', '0', '0', hexDigit (c.toNat / 16), hexDigit (c.toNat % 16)] := by
        unfold escapeChar
        rw [if_neg h1, if_neg h2, if_neg h3, if_neg h4, if_neg h5, if_neg h6, if_neg h7,
          if_pos h8]
      rw [he]
      show parseStrBody ('\\' :: 'u' :: '0' :: '0' :: hexDigit (c.toNat / 16)
          :: hexDigit (c.toNat % 16) :: (t.flatMap escapeChar ++ ('"' :: rest))) = _
      rw [parseStrBody_uStep]
      rw [show hexVal '0' = some 0 from rfl,
        hexVal_hexDigit (c.toNat / 16) (by omega),
        hexVal_hexDigit (c.toNat % 16) (by omega)]
      simp only [Option.some_bind]
      have hn : ((0 * 16 + 0) * 16 + c.toNat / 16) * 16 + c.toNat % 16 = c.toNat := by
        omega
      rw [hn, if_pos (Or.inl (by omega)), ih rest]
      simp [Char.ofNat_toNat]
    · have he : escapeChar c = [c] := by
        unfold escapeChar
        rw [if_neg h1, if_neg h2, if_neg h3, if_neg h4, if_neg h5, if_neg h6, if_neg h7,
          if_neg h8]
      rw [he]
      show parseStrBody (c :: (t.flatMap escapeChar ++ ('"' :: rest))) = _
      rw [parseStrBody_plainStep c _ h1 h2 h8, ih rest]
      rfl

/-! ## Roundtrip infrastructure: parser helpers -/

/-- Characters with different code points differ. -/
theorem ne_of_toNat_ne {c d : Char} (h : c.toNat ≠ d.toNat) : c ≠ d :=
  fun he => h (congrArg Char.toNat he)

/-- `dropWhile` is the identity on a list headed by a non-whitespace
character. -/
theorem dropWhile_cons_false (c : Char) (l : List Char) (h : isJsonWs c = false) :
    (c :: l).dropWhile isJsonWs = c :: l := by
  simp [List.dropWhile, h]

/-- A decimal digit is not whitespace and not any JSON structural
character. -/
theorem digit_facts {c : Char} (h : isDigitC c = true) :
    isJsonWs c = false ∧ c ≠ 'n' ∧ c ≠ 't' ∧ c ≠ 'f' ∧ c ≠ '"' ∧ c ≠ '['
      ∧ c ≠ '{' ∧ c ≠ '-' ∧ c ≠ ']' ∧ c ≠ '}' ∧ c ≠ ',' := by
  have hb : 48 ≤ c.toNat ∧ c.toNat ≤ 57 := by
    simpa [isDigitC] using h
  refine ⟨?_,
    ne_of_toNat_ne (by rw [show ('n').toNat = 110 from rfl]; omega),
    ne_of_toNat_ne (by rw [show ('t').toNat = 116 from rfl]; omega),
    ne_of_toNat_ne (by rw [show ('f').toNat = 102 from rfl]; omega),
    ne_of_toNat_ne (by rw [show ('"').toNat = 34 from rfl]; omega),
    ne_of_toNat_ne (by rw [show ('[').toNat = 91 from rfl]; omega),
    ne_of_toNat_ne (by rw [show Char.toNat (Char.ofNat 123) = 123 from rfl]; omega),
    ne_of_toNat_ne (by rw [show ('-').toNat = 45 from rfl]; omega),
    ne_of_toNat_ne (by rw [show (']').toNat = 93 from rfl]; omega),
    ne_of_toNat_ne (by rw [show Char.toNat (Char.ofNat 125) = 125 from rfl]; omega),
    ne_of_toNat_ne (by rw [show (',').toNat = 44 from rfl]; omega)⟩
  simp only [isJsonWs, Bool.or_eq_false_iff, decide_eq_false_iff_not]
  refine ⟨⟨⟨?_, ?_⟩, ?_⟩, ?_⟩
  · exact ne_of_toNat_ne (by rw [show (' ').toNat = 32 from rfl]; omega)
  · exact ne_of_toNat_ne (by rw [show Char.toNat (Char.ofNat 9) = 9 from rfl]; omega)
  · exact ne_of_toNat_ne (by rw [show Char.toNat (Char.ofNat 10) = 10 from rfl]; omega)
  · exact ne_of_toNat_ne (by rw [show Char.toNat (Char.ofNat 13) = 13 from rfl]; omega)

/-- The decimal expansion decomposes into a digit head and tail. -/
theorem natToChars_head (n : ℕ) :
    ∃ c t, natToChars n = c :: t ∧ isDigitC c = true := by
  cases hc : natToChars n with
  | nil => exact absurd hc (natToChars_ne_nil n)
  | cons c t =>
    exact ⟨c, t, rfl, natToChars_digits n c (by rw [hc]; exact List.mem_cons_self c t)⟩

/-- `jsize` is positive. -/
theorem jsize_pos (v : JValue) : 1 ≤ jsize v := by
  cases v <;> simp [jsize]

/-- `stringifyArr` of a nonempty list starts with its first element. -/
theorem stringifyArr_cons (x : JValue) (xs : List JValue) :
    stringifyArr (x :: xs)
      = stringify x ++ (if xs.isEmpty then [] else ',' :: stringifyArr xs) := by
  cases xs with
  | nil => simp [stringifyArr]
  | cons y ys => simp [stringifyArr]

/-- `stringifyObj` of a nonempty list starts with its first field. -/
theorem stringifyObj_cons (kv : List Char × JValue) (fs : List (List Char × JValue)) :
    stringifyObj (kv :: fs)
      = stringifyStr kv.1 ++ ':' :: stringify kv.2
          ++ (if fs.isEmpty then [] else ',' :: stringifyObj fs) := by
  cases fs with
  | nil => simp [stringifyObj]
  | cons f2 fs2 => simp [stringifyObj]

/-- Every serialized value starts with a distinctive non-whitespace
character that is not a closing bracket or separator. -/
theorem stringify_head (v : JValue) :
    ∃ c t, stringify v = c :: t ∧ isJsonWs c = false ∧ c ≠ ']' ∧ c ≠ '}' := by
  cases v with
  | jnull => refine ⟨'n', _, rfl, ?_, ?_, ?_⟩ <;> decide
  | jbool b =>
    cases b
    · refine ⟨'f', _, rfl, ?_, ?_, ?_⟩ <;> decide
    · refine ⟨'t', _, rfl, ?_, ?_, ?_⟩ <;> decide
  | jstr s => refine ⟨'"', _, rfl, ?_, ?_, ?_⟩ <;> decide
  | jarr xs => refine ⟨'[', _, rfl, ?_, ?_, ?_⟩ <;> decide
  | jobj fs => refine ⟨Char.ofNat 123, _, rfl, ?_, ?_, ?_⟩ <;> decide
  | jnum n =>
    show ∃ c t, intToChars n = c :: t ∧ _
    unfold intToChars
    by_cases hneg : n < 0
    · rw [if_pos hneg]
      exact ⟨'-', _, rfl, by decide, by decide, by decide⟩
    · rw [if_neg hneg]
      obtain ⟨c, t, hct, hd⟩ := natToChars_head n.toNat
      obtain ⟨hws, _, _, _, _, _, _, _, h9, h10, _⟩ := digit_facts hd
      exact ⟨c, t, hct, hws, h9, h10⟩

/-! ## Roundtrip infrastructure: `parseVal` step equations -/

/-- `null` keyword at the head. -/
theorem parseVal_nullStep (fuel : ℕ) (R : List Char) :
    parseVal (fuel + 1) ('n' :: 'u' :: 'l' :: 'l' :: R) = some (.jnull, R) := rfl

/-- `true` keyword at the head. -/
theorem parseVal_trueStep (fuel : ℕ) (R : List Char) :
    parseVal (fuel + 1) ('t' :: 'r' :: 'u' :: 'e' :: R) = some (.jbool true, R) := rfl

/-- `false` keyword at the head. -/
theorem parseVal_falseStep (fuel : ℕ) (R : List Char) :
    parseVal (fuel + 1) ('f' :: 'a' :: 'l' :: 's' :: 'e' :: R)
      = some (.jbool false, R) := rfl

/-- A string literal at the head. -/
theorem parseVal_strStep (fuel : ℕ) (R : List Char) :
    parseVal (fuel + 1) ('"' :: R)
      = (parseStrBody R).bind (fun p => some (.jstr p.1, p.2)) := rfl

/-- An empty array at the head. -/
theorem parseVal_arrEmptyStep (fuel : ℕ) (R : List Char) :
    parseVal (fuel + 1) ('[' :: ']' :: R) = some (.jarr [], R) := rfl

/-- A nonempty array at the head: the element parser takes over. -/
theorem parseVal_arrStep (fuel : ℕ) (c2 : Char) (R : List Char)
    (hws : isJsonWs c2 = false) (hne : c2 ≠ ']') :
    parseVal (fuel + 1) ('[' :: c2 :: R)
      = (parseArrElems fuel (c2 :: R)).bind (fun p => some (.jarr p.1, p.2)) := by
  rw [show parseVal (fuel + 1) ('[' :: c2 :: R)
      = (match (c2 :: R).dropWhile isJsonWs with
         | c3 :: rest2 =>
           if c3 = ']' then some (.jarr [], rest2)
           else (parseArrElems fuel (c2 :: R)).bind (fun p => some (.jarr p.1, p.2))
         | [] => (parseArrElems fuel (c2 :: R)).bind (fun p => some (.jarr p.1, p.2)))
    from rfl]
  rw [dropWhile_cons_false c2 R hws]
  simp only [if_neg hne]

/-- An empty object at the head. -/
theorem parseVal_objEmptyStep (fuel : ℕ) (R : List Char) :
    parseVal (fuel + 1) ('{' :: '}' :: R)
      = some (.jobj [], R) := rfl

/-- A nonempty object at the head: the field parser takes over. -/
theorem parseVal_objStep (fuel : ℕ) (c2 : Char) (R : List Char)
    (hws : isJsonWs c2 = false) (hne : c2 ≠ '}') :
    parseVal (fuel + 1) ('{' :: c2 :: R)
      = (parseObjFields fuel (c2 :: R)).bind (fun p => some (.jobj p.1, p.2)) := by
  rw [show parseVal (fuel + 1) ('{' :: c2 :: R)
      = (match (c2 :: R).dropWhile isJsonWs with
         | c3 :: rest2 =>
           if c3 = '}' then some (.jobj [], rest2)
           else (parseObjFields fuel (c2 :: R)).bind (fun p => some (.jobj p.1, p.2))
         | [] => (parseObjFields fuel (c2 :: R)).bind (fun p => some (.jobj p.1, p.2)))
    from rfl]
  rw [dropWhile_cons_false c2 R hws]
  simp only [if_neg hne]

/-- A digit at the head: number parsing. -/
theorem parseVal_digitStep (fuel : ℕ) (c : Char) (R : List Char)
    (hc : isDigitC c = true) :
    parseVal (fuel + 1) (c :: R)
      = some (.jnum ((parseDigitsAux (c :: R) 0).1 : ℤ),
          (parseDigitsAux (c :: R) 0).2) := by
  obtain ⟨hws, h1, h2, h3, h4, h5, h6, h7, _, _, _⟩ := digit_facts hc
  conv_lhs => unfold parseVal
  rw [dropWhile_cons_false c R hws]
  simp only [if_neg h1, if_neg h2, if_neg h3, if_neg h4, if_neg h5, if_neg h6, if_neg h7,
    if_pos hc]

/-- A minus sign followed by a digit: negative number parsing. -/
theorem parseVal_minusStep (fuel : ℕ) (c2 : Char) (R : List Char)
    (hc2 : isDigitC c2 = true) :
    parseVal (fuel + 1) ('-' :: c2 :: R)
      = some (.jnum (-((parseDigitsAux (c2 :: R) 0).1 : ℤ)),
          (parseDigitsAux (c2 :: R) 0).2) := by
  rw [show parseVal (fuel + 1) ('-' :: c2 :: R)
      = (if isDigitC c2 = true then
          some (.jnum (-((parseDigitsAux (c2 :: R) 0).1 : ℤ)),
            (parseDigitsAux (c2 :: R) 0).2)
         else none)
    from rfl]
  rw [if_pos hc2]

/-! ## Roundtrip infrastructure: the parser inverts `stringify` -/

/-- The sizes of nonempty element and field lists are positive. -/
theorem asize_pos (x : JValue) (xs : List JValue) : 1 ≤ asize (x :: xs) := by
  simp [asize]
  omega

theorem osize_pos (kv : List Char × JValue) (fs : List (List Char × JValue)) :
    1 ≤ osize (kv :: fs) := by
  simp [osize]
  omega

/-- A trailing input headed by a fixed non-digit starts with no digit. -/
theorem nextOkConst (d : Char) (hd : isDigitC d = false) (rest : List Char) :
    ∀ c, ((d :: rest).head? = some c) → isDigitC c = false := by
  intro c h
  rw [List.head?_cons] at h
  cases h
  exact hd

/-- Core induction: on any suffix `rest` that does not start with a digit,
`parseVal` with enough fuel reads back exactly the serialized value, and
the element/field parsers read back serialized nonempty lists up to their
closing bracket. -/
theorem parse_stringify (fuel : ℕ) :
    (∀ (v : JValue) (rest : List Char), jsize v ≤ fuel →
      (∀ c, rest.head? = some c → isDigitC c = false) →
      parseVal fuel (stringify v ++ rest) = some (v, rest))
    ∧ (∀ (xs : List JValue) (rest : List Char), xs ≠ [] → asize xs ≤ fuel →
      parseArrElems fuel (stringifyArr xs ++ (']' :: rest)) = some (xs, rest))
    ∧ (∀ (fs : List (List Char × JValue)) (rest : List Char), fs ≠ [] → osize fs ≤ fuel →
      parseObjFields fuel (stringifyObj fs ++ ('}' :: rest)) = some (fs, rest)) := by
  induction fuel using Nat.strong_induction_on with
  | _ fuel ih =>
  rcases fuel with _ | f
  · refine ⟨fun v rest hs _ => absurd hs (by have := jsize_pos v; omega),
      fun xs rest hne hs => ?_, fun fs rest hne hs => ?_⟩
    · cases xs with
      | nil => exact absurd rfl hne
      | cons a t => simp [asize] at hs
    · cases fs with
      | nil => exact absurd rfl hne
      | cons a t => simp [osize] at hs
  have ihP := (ih f (Nat.lt_succ_self f)).1
  have ihQ := (ih f (Nat.lt_succ_self f)).2.1
  have ihR := (ih f (Nat.lt_succ_self f)).2.2
  refine ⟨?_, ?_, ?_⟩
  · intro v rest hsize hrest
    cases v with
    | jnull => exact parseVal_nullStep f rest
    | jbool b =>
      cases b
      · exact parseVal_falseStep f rest
      · exact parseVal_trueStep f rest
    | jnum n =>
      show parseVal (f + 1) (intToChars n ++ rest) = some (.jnum n, rest)
      unfold intToChars
      by_cases hneg : n < 0
      · rw [if_pos hneg]
        obtain ⟨c, t, hct, hd⟩ := natToChars_head n.natAbs
        rw [hct]
        rw [show ('-' :: c :: t) ++ rest = '-' :: c :: (t ++ rest) from rfl]
        rw [parseVal_minusStep f c (t ++ rest) hd]
        have hpd : parseDigitsAux (c :: (t ++ rest)) 0 = (n.natAbs, rest) := by
          rw [show c :: (t ++ rest) = (c :: t) ++ rest from rfl, ← hct]
          exact parseDigitsAux_natToChars n.natAbs rest hrest
        rw [hpd]
        have hcast : (-(n.natAbs : ℤ)) = n := by omega
        rw [hcast]
      · rw [if_neg hneg]
        obtain ⟨c, t, hct, hd⟩ := natToChars_head n.toNat
        rw [hct]
        rw [show (c :: t) ++ rest = c :: (t ++ rest) from rfl]
        rw [parseVal_digitStep f c (t ++ rest) hd]
        have hpd : parseDigitsAux (c :: (t ++ rest)) 0 = (n.toNat, rest) := by
          rw [show c :: (t ++ rest) = (c :: t) ++ rest from rfl, ← hct]
          exact parseDigitsAux_natToChars n.toNat rest hrest
        rw [hpd]
        have hcast : ((n.toNat : ℤ)) = n := by omega
        rw [hcast]
    | jstr s =>
      show parseVal (f + 1) (stringifyStr s ++ rest) = some (.jstr s, rest)
      rw [show stringifyStr s ++ rest
          = '"' :: (s.flatMap escapeChar ++ ('"' :: rest)) from by
        simp [stringifyStr]]
      rw [parseVal_strStep f _, parseStrBody_escape s rest]
      rfl
    | jarr xs =>
      cases xs with
      | nil => exact parseVal_arrEmptyStep f rest
      | cons x xs' =>
        obtain ⟨c2, t2, hct2, hws2, hnb2, _⟩ := stringify_head x
        have hinput : stringify (.jarr (x :: xs')) ++ rest
            = '[' :: (stringifyArr (x :: xs') ++ (']' :: rest)) := by
          show ('[' :: stringifyArr (x :: xs') ++ [']']) ++ rest = _
          simp
        rw [hinput]
        have hhead : stringifyArr (x :: xs') ++ (']' :: rest)
            = c2 :: (t2 ++ ((if xs'.isEmpty then [] else ',' :: stringifyArr xs')
                ++ (']' :: rest))) := by
          rw [stringifyArr_cons, hct2]
          simp
        rw [hhead, parseVal_arrStep f c2 _ hws2 hnb2, ← hhead]
        rw [ihQ (x :: xs') rest (by simp) (by
          simp only [jsize] at hsize
          omega)]
        rfl
    | jobj fs =>
      cases fs with
      | nil => exact parseVal_objEmptyStep f rest
      | cons kv fs' =>
        obtain ⟨c2, t2, hct2, hws2, _, hnb2⟩ := stringify_head (.jstr kv.1)
        have hinput : stringify (.jobj (kv :: fs')) ++ rest
            = '{' :: (stringifyObj (kv :: fs') ++ ('}' :: rest)) := by
          show ('{' :: stringifyObj (kv :: fs') ++ ['}']) ++ rest = _
          simp
        rw [hinput]
        have hhead : stringifyObj (kv :: fs') ++ ('}' :: rest)
            = c2 :: (t2 ++ (':' :: stringify kv.2
                ++ ((if fs'.isEmpty then [] else ',' :: stringifyObj fs')
                  ++ ('}' :: rest)))) := by
          rw [stringifyObj_cons]
          rw [show stringifyStr kv.1 = stringify (.jstr kv.1) from rfl, hct2]
          simp
        rw [hhead, parseVal_objStep f c2 _ hws2 hnb2, ← hhead]
        rw [ihR (kv :: fs') rest (by simp) (by
          simp only [jsize] at hsize
          omega)]
        rfl
  · intro xs rest hne hsize
    cases xs with
    | nil => exact absurd rfl hne
    | cons x xs' =>
      have hsx : jsize x ≤ f := by
        simp only [asize] at hsize
        omega
      cases xs' with
      | nil =>
        show parseArrElems (f + 1) (stringifyArr [x] ++ (']' :: rest)) = some ([x], rest)
        rw [show stringifyArr [x] = stringify x from rfl]
        conv_lhs => unfold parseArrElems
        rw [ihP x (']' :: rest) hsx (nextOkConst ']' (by decide) rest)]
        simp only [Option.bind_eq_bind, Option.some_bind,
          dropWhile_cons_false ']' rest (by decide)]
        simp
      | cons y ys =>
        have hinput : stringifyArr (x :: y :: ys) ++ (']' :: rest)
            = stringify x ++ (',' :: (stringifyArr (y :: ys) ++ (']' :: rest))) := by
          rw [show stringifyArr (x :: y :: ys)
              = stringify x ++ ',' :: stringifyArr (y :: ys) from rfl]
          simp
        rw [hinput]
        conv_lhs => unfold parseArrElems
        rw [ihP x (',' :: (stringifyArr (y :: ys) ++ (']' :: rest))) hsx
          (nextOkConst ',' (by decide) _)]
        simp only [Option.bind_eq_bind, Option.some_bind,
          dropWhile_cons_false ',' _ (by decide)]
        simp only [if_true]
        rw [ihQ (y :: ys) rest (by simp) (by
          simp only [asize] at hsize ⊢
          omega)]
        rfl
  · intro fs rest hne hsize
    cases fs with
    | nil => exact absurd rfl hne
    | cons kv fs' =>
      have hskv : jsize kv.2 ≤ f := by
        simp only [osize] at hsize
        omega
      have hks : stringifyObj (kv :: fs') ++ ('}' :: rest)
          = '"' :: (kv.1.flatMap escapeChar ++ ('"' :: (':' :: (stringify kv.2
              ++ ((if fs'.isEmpty then [] else ',' :: stringifyObj fs')
                ++ ('}' :: rest)))))) := by
        rw [stringifyObj_cons]
        show ('"' :: kv.1.flatMap escapeChar ++ ['"']) ++ _ ++ _ ++ _ = _
        simp
      rw [hks]
      conv_lhs => unfold parseObjFields
      rw [dropWhile_cons_false '"' _ (by decide)]
      simp only [if_pos rfl]
      rw [parseStrBody_escape kv.1 _]
      simp only [Option.bind_eq_bind, Option.some_bind,
        dropWhile_cons_false ':' _ (by decide)]
      simp only [if_true]
      cases hfs : fs' with
      | nil =>
        rw [show ((if ([] : List (List Char × JValue)).isEmpty then []
            else ',' :: stringifyObj []) ++ ('}' :: rest)) = '}' :: rest from rfl]
        rw [ihP kv.2 ('}' :: rest) hskv (nextOkConst '}' (by decide) rest)]
        simp only [Option.bind_eq_bind, Option.some_bind,
          dropWhile_cons_false '}' rest (by decide)]
        simp
      | cons kv2 fs2 =>
        rw [show ((if (kv2 :: fs2 : List (List Char × JValue)).isEmpty then []
            else ',' :: stringifyObj (kv2 :: fs2)) ++ ('}' :: rest))
            = ',' :: (stringifyObj (kv2 :: fs2) ++ ('}' :: rest)) from rfl]
        rw [ihP kv.2 (',' :: (stringifyObj (kv2 :: fs2) ++ ('}' :: rest))) hskv
          (nextOkConst ',' (by decide) _)]
        simp only [Option.bind_eq_bind, Option.some_bind,
          dropWhile_cons_false ',' _ (by decide)]
        simp only [if_true]
        rw [ihR (kv2 :: fs2) rest (by simp) (by
          rw [hfs] at hsize
          simp only [osize] at hsize ⊢
          omega)]
        rfl

/-! ## `jsonParse` inverts `stringify` -/

mutual

/-- The node count never exceeds the serialized length. -/
theorem jsize_le_len : ∀ v : JValue, jsize v ≤ (stringify v).length
  | .jnull => by simp [jsize, stringify]
  | .jbool b => by cases b <;> simp [jsize, stringify]
  | .jnum n => by
    have h : 0 < (stringify (.jnum n)).length := by
      show 0 < (intToChars n).length
      unfold intToChars
      by_cases hneg : n < 0
      · rw [if_pos hneg]
        simp
      · rw [if_neg hneg]
        exact List.length_pos.mpr (natToChars_ne_nil n.toNat)
    simpa [jsize] using h
  | .jstr s => by
    simp only [jsize, stringify, stringifyStr]
    simp
  | .jarr xs => by
    have h := asize_le_len xs
    simp only [jsize, stringify]
    simp only [List.length_cons, List.length_append]
    omega
  | .jobj fs => by
    have h := osize_le_len fs
    simp only [jsize, stringify]
    simp only [List.length_cons, List.length_append]
    omega

theorem asize_le_len : ∀ xs : List JValue, asize xs ≤ (stringifyArr xs).length + 1
  | [] => by simp [asize]
  | [x] => by
    have h := jsize_le_len x
    simp only [asize, stringifyArr]
    omega
  | x :: y :: ys => by
    have h1 := jsize_le_len x
    have h2 := asize_le_len (y :: ys)
    simp only [asize, stringifyArr, List.length_append, List.length_cons]
    simp only [asize] at h2
    omega

theorem osize_le_len : ∀ fs : List (List Char × JValue),
    osize fs ≤ (stringifyObj fs).length + 1
  | [] => by simp [osize]
  | [kv] => by
    have h := jsize_le_len kv.2
    simp only [osize, stringifyObj, List.length_append, List.length_cons]
    omega
  | kv :: kv2 :: fs2 => by
    have h1 := jsize_le_len kv.2
    have h2 := osize_le_len (kv2 :: fs2)
    simp only [osize, stringifyObj, List.length_append, List.length_cons]
    simp only [osize] at h2
    omega

end

/-- `JSON.parse` recovers any serialized value. -/
theorem jsonParse_stringify (v : JValue) : jsonParse (stringify v) = some v := by
  unfold jsonParse
  have hfuel : jsize v ≤ (stringify v).length + 1 := by
    have := jsize_le_len v
    omega
  have hmain := ((parse_stringify ((stringify v).length + 1)).1 v [] hfuel
    (fun c h => by simp at h))
  rw [show stringify v ++ ([] : List Char) = stringify v from by simp] at hmain
  rw [hmain]
  rfl

/-! ## Roundtrip infrastructure: base64 -/

/-- `b64Val` inverts `b64Char` on sextets. -/
theorem b64Val_b64Char : ∀ n : ℕ, n < 64 → b64Val (b64Char n) = some n := by
  decide

/-- No sextet encodes to the padding character. -/
theorem b64Char_ne_pad : ∀ n : ℕ, n < 64 → b64Char n ≠ '=' := by
  decide

/-- Decoding undoes encoding for byte lists (latin-1 range). -/
theorem b64DecodeChunks_encode :
    ∀ bs : List ℕ, (∀ b ∈ bs, b < 256) →
      b64DecodeChunks (b64EncodeBytes bs) = some bs
  | [], _ => rfl
  | [a], h => by
    have ha : a < 256 := h a (by simp)
    show b64DecodeChunks [b64Char (a / 4), b64Char (a % 4 * 16), '=', '='] = some [a]
    conv_lhs => unfold b64DecodeChunks
    rw [if_pos ⟨rfl, rfl, rfl⟩]
    rw [b64Val_b64Char (a / 4) (by omega), b64Val_b64Char (a % 4 * 16) (by omega)]
    simp only [Option.bind_eq_bind, Option.some_bind]
    congr 1
    have : a / 4 * 4 + a % 4 * 16 / 16 = a := by omega
    rw [this]
  | [a, b], h => by
    have ha : a < 256 := h a (by simp)
    have hb : b < 256 := h b (by simp)
    show b64DecodeChunks [b64Char (a / 4), b64Char (a % 4 * 16 + b / 16),
        b64Char (b % 16 * 4), '='] = some [a, b]
    conv_lhs => unfold b64DecodeChunks
    rw [if_neg (fun hcon => b64Char_ne_pad (b % 16 * 4) (by omega) hcon.2.1)]
    rw [if_pos ⟨rfl, rfl⟩]
    rw [b64Val_b64Char (a / 4) (by omega),
      b64Val_b64Char (a % 4 * 16 + b / 16) (by omega),
      b64Val_b64Char (b % 16 * 4) (by omega)]
    simp only [Option.bind_eq_bind, Option.some_bind]
    congr 1
    have h1 : a / 4 * 4 + (a % 4 * 16 + b / 16) / 16 = a := by omega
    have h2 : (a % 4 * 16 + b / 16) % 16 * 16 + b % 16 * 4 / 4 = b := by omega
    rw [h1, h2]
  | a :: b :: c :: d :: rest, h => by
    have ha : a < 256 := h a (by simp)
    have hb : b < 256 := h b (by simp)
    have hc : c < 256 := h c (by simp)
    show b64DecodeChunks (b64Char (a / 4) :: b64Char (a % 4 * 16 + b / 16)
        :: b64Char (b % 16 * 4 + c / 64) :: b64Char (c % 64)
        :: b64EncodeBytes (d :: rest)) = some (a :: b :: c :: d :: rest)
    conv_lhs => unfold b64DecodeChunks
    rw [if_neg (fun hcon => b64Char_ne_pad (b % 16 * 4 + c / 64) (by omega) hcon.2.1)]
    rw [if_neg (fun hcon => b64Char_ne_pad (c % 64) (by omega) hcon.2)]
    rw [b64Val_b64Char (a / 4) (by omega),
      b64Val_b64Char (a % 4 * 16 + b / 16) (by omega),
      b64Val_b64Char (b % 16 * 4 + c / 64) (by omega),
      b64Val_b64Char (c % 64) (by omega)]
    simp only [Option.bind_eq_bind, Option.some_bind]
    rw [b64DecodeChunks_encode (d :: rest) (fun x hx => h x (by simp [hx]))]
    simp only [Option.some_bind]
    congr 1
    have h1 : a / 4 * 4 + (a % 4 * 16 + b / 16) / 16 = a := by omega
    have h2 : (a % 4 * 16 + b / 16) % 16 * 16 + (b % 16 * 4 + c / 64) / 4 = b := by
      omega
    have h3 : (b % 16 * 4 + c / 64) % 4 * 64 + c % 64 = c := by omega
    rw [h1, h2, h3]
  | [a, b, c], h => by
    have ha : a < 256 := h a (by simp)
    have hb : b < 256 := h b (by simp)
    have hc : c < 256 := h c (by simp)
    show b64DecodeChunks [b64Char (a / 4), b64Char (a % 4 * 16 + b / 16),
        b64Char (b % 16 * 4 + c / 64), b64Char (c % 64)] = some [a, b, c]
    conv_lhs => unfold b64DecodeChunks
    rw [if_neg (fun hcon => b64Char_ne_pad (b % 16 * 4 + c / 64) (by omega) hcon.2.1)]
    rw [if_neg (fun hcon => b64Char_ne_pad (c % 64) (by omega) hcon.2)]
    rw [b64Val_b64Char (a / 4) (by omega),
      b64Val_b64Char (a % 4 * 16 + b / 16) (by omega),
      b64Val_b64Char (b % 16 * 4 + c / 64) (by omega),
      b64Val_b64Char (c % 64) (by omega)]
    simp only [Option.bind_eq_bind, Option.some_bind]
    rw [show b64DecodeChunks ([] : List Char) = some [] from rfl]
    simp only [Option.some_bind]
    congr 1
    have h1 : a / 4 * 4 + (a % 4 * 16 + b / 16) / 16 = a := by omega
    have h2 : (a % 4 * 16 + b / 16) % 16 * 16 + (b % 16 * 4 + c / 64) / 4 = b := by
      omega
    have h3 : (b % 16 * 4 + c / 64) % 4 * 64 + c % 64 = c := by omega
    rw [h1, h2, h3]

/-- `atob` undoes `btoa` on latin-1 strings. -/
theorem atob_btoa (s : List Char) (h : ∀ c ∈ s, c.toNat < 256) :
    btoa s = some (b64EncodeBytes (s.map Char.toNat))
    ∧ atob (b64EncodeBytes (s.map Char.toNat)) = some s := by
  constructor
  · unfold btoa
    rw [if_pos (by simpa [List.all_eq_true] using h)]
  · unfold atob
    rw [b64DecodeChunks_encode (s.map Char.toNat) (by
      intro b hb
      rcases List.mem_map.mp hb with ⟨c, hcs, hct⟩
      exact hct ▸ h c hcs)]
    simp only [Option.map_some']
    congr 1
    rw [List.map_map]
    refine List.map_congr_left ?_ |>.trans (List.map_id s)
    intro c _
    exact Char.ofNat_toNat c

/-! ## Roundtrip infrastructure: UTF-8 and percent-encoding -/

/-- Scalar-value bounds of any character. -/
theorem char_valid_toNat (c : Char) :
    c.toNat < 0xd800 ∨ (0xdfff < c.toNat ∧ c.toNat < 0x110000) := by
  rcases c.valid with h | ⟨h1, h2⟩
  · exact Or.inl (UInt32.toNat_lt_of_lt (by norm_num) h)
  · exact Or.inr ⟨UInt32.lt_toNat_of_lt (by norm_num) h1,
      UInt32.toNat_lt_of_lt (by norm_num) h2⟩

/-- Every UTF-8 byte of a character fits in a byte. -/
theorem utf8EncodeChar_lt256 (c : Char) : ∀ b ∈ utf8EncodeChar c, b < 256 := by
  have hv : c.toNat < 0x110000 := by
    rcases char_valid_toNat c with h | ⟨_, h⟩ <;> omega
  unfold utf8EncodeChar
  split_ifs with h1 h2 h3 <;> intro b hb <;> simp at hb <;> rcases hb with hb | hb <;>
    first
      | omega
      | (rcases hb with hb | hb <;> omega)
      | (rcases hb with hb | hb | hb <;> omega)

/-- A character encodes to at least one byte. -/
theorem utf8EncodeChar_ne_nil (c : Char) : utf8EncodeChar c ≠ [] := by
  unfold utf8EncodeChar
  split_ifs <;> simp

/-- UTF-8 decoding undoes the encoding of one leading character. -/
theorem utf8Decode_encodeChar (c : Char) (rest : List ℕ) :
    utf8Decode (utf8EncodeChar c ++ rest)
      = (utf8Decode rest).bind (fun tl => some (c :: tl)) := by
  have hv := char_valid_toNat c
  unfold utf8EncodeChar
  by_cases h1 : c.toNat < 0x80
  · rw [if_pos h1]
    show utf8Decode (c.toNat :: rest) = _
    conv_lhs => unfold utf8Decode
    rw [if_pos h1, Char.ofNat_toNat]
  by_cases h2 : c.toNat < 0x800
  · rw [if_neg h1, if_pos h2]
    show utf8Decode ((0xc0 + c.toNat / 64) :: (0x80 + c.toNat % 64) :: rest) = _
    conv_lhs => unfold utf8Decode
    rw [if_neg (by omega), if_neg (by omega), if_pos (by omega)]
    conv_lhs => unfold utf8DecodeTwo
    rw [if_pos ⟨by omega, by omega⟩]
    rw [show (0xc0 + c.toNat / 64 - 0xc0) * 64 + (0x80 + c.toNat % 64 - 0x80)
        = c.toNat from by omega, Char.ofNat_toNat]
  by_cases h3 : c.toNat < 0x10000
  · rw [if_neg h1, if_neg h2, if_pos h3]
    show utf8Decode ((0xe0 + c.toNat / 4096) :: (0x80 + c.toNat / 64 % 64)
        :: (0x80 + c.toNat % 64) :: rest) = _
    conv_lhs => unfold utf8Decode
    rw [if_neg (by omega), if_neg (by omega), if_neg (by omega), if_pos (by omega)]
    conv_lhs => unfold utf8DecodeThree
    have hexp : (0xe0 + c.toNat / 4096 - 0xe0) * 4096
        + (0x80 + c.toNat / 64 % 64 - 0x80) * 64 + (0x80 + c.toNat % 64 - 0x80)
        = c.toNat := by omega
    rw [if_pos (by
      refine ⟨⟨by omega, by omega⟩, ⟨by omega, by omega⟩, ?_, ?_⟩
      · rw [hexp]; omega
      · rw [hexp]; omega)]
    rw [hexp, Char.ofNat_toNat]
  · rw [if_neg h1, if_neg h2, if_neg h3]
    show utf8Decode ((0xf0 + c.toNat / 262144) :: (0x80 + c.toNat / 4096 % 64)
        :: (0x80 + c.toNat / 64 % 64) :: (0x80 + c.toNat % 64) :: rest) = _
    conv_lhs => unfold utf8Decode
    rw [if_neg (by omega), if_neg (by omega), if_neg (by omega), if_neg (by omega),
      if_pos (by omega)]
    conv_lhs => unfold utf8DecodeFour
    have hexp : (0xf0 + c.toNat / 262144 - 0xf0) * 262144
        + (0x80 + c.toNat / 4096 % 64 - 0x80) * 4096
        + (0x80 + c.toNat / 64 % 64 - 0x80) * 64 + (0x80 + c.toNat % 64 - 0x80)
        = c.toNat := by omega
    rw [if_pos (by
      refine ⟨⟨by omega, by omega⟩, ⟨by omega, by omega⟩, ⟨by omega, by omega⟩, ?_, ?_⟩
      · rw [hexp]; omega
      · rw [hexp]; omega)]
    rw [hexp, Char.ofNat_toNat]

/-- UTF-8 decoding undoes the encoding of a whole string. -/
theorem utf8Decode_flatMap (s : List Char) :
    utf8Decode (s.flatMap utf8EncodeChar) = some s := by
  induction s with
  | nil => rfl
  | cons c t ih =>
    rw [List.flatMap_cons, utf8Decode_encodeChar, ih]
    rfl

/-- Unreserved characters are not the escape character. -/
theorem unreserved_ne_percent {c : Char} (h : uriUnreserved c = true) : c ≠ '%' := by
  intro he
  subst he
  exact absurd h (by decide)

/-- A percent-escaped byte block reads back as its bytes. -/
theorem percentToBytes_escaped (bs : List ℕ) (hb : ∀ b ∈ bs, b < 256) :
    ∀ R : List Char,
      percentToBytes (bs.flatMap percentEncodeByte ++ R)
        = (percentToBytes R).bind (fun tl => some (bs ++ tl)) := by
  induction bs with
  | nil =>
    intro R
    simp only [List.flatMap_nil, List.nil_append]
    cases hpr : percentToBytes R <;> rfl
  | cons b bs' ih =>
    intro R
    have hb0 : b < 256 := hb b (by simp)
    rw [List.flatMap_cons, List.append_assoc]
    show percentToBytes ('%' :: hexDigitUpper (b / 16) :: hexDigitUpper (b % 16)
        :: (bs'.flatMap percentEncodeByte ++ R)) = _
    conv_lhs => unfold percentToBytes
    rw [if_pos rfl]
    simp only [hexVal_hexDigitUpper (b / 16) (by omega),
      hexVal_hexDigitUpper (b % 16) (by omega), Option.bind_eq_bind, Option.some_bind]
    rw [ih (fun x hx => hb x (by simp [hx])) R]
    cases hpr : percentToBytes R with
    | none => rfl
    | some tl =>
      simp only [Option.some_bind]
      congr 2
      omega

/-- Reading the percent-encoded text recovers the UTF-8 byte stream. -/
theorem percentToBytes_encode (s : List Char) :
    percentToBytes (encodeURIComponent s) = some (s.flatMap utf8EncodeChar) := by
  induction s with
  | nil => rfl
  | cons c t ih =>
    show percentToBytes ((if uriUnreserved c then [c]
        else (utf8EncodeChar c).flatMap percentEncodeByte) ++ encodeURIComponent t)
      = some ((c :: t).flatMap utf8EncodeChar)
    rw [List.flatMap_cons]
    by_cases hu : uriUnreserved c
    · rw [if_pos hu]
      show percentToBytes (c :: encodeURIComponent t) = _
      conv_lhs => unfold percentToBytes
      rw [if_neg (unreserved_ne_percent hu)]
      rw [ih]
      rfl
    · rw [if_neg hu]
      rw [percentToBytes_escaped (utf8EncodeChar c) (utf8EncodeChar_lt256 c)
        (encodeURIComponent t), ih]
      rfl

/-- `decodeURIComponent` undoes `encodeURIComponent`. -/
theorem decodeURIComponent_encode (s : List Char) :
    decodeURIComponent (encodeURIComponent s) = some s := by
  unfold decodeURIComponent
  rw [percentToBytes_encode s]
  simp only [Option.some_bind]
  exact utf8Decode_flatMap s

/-! ## Storage Adapter helper lemmas -/

/-- Unreserved characters are ASCII (in particular latin-1). -/
theorem uriUnreserved_lt256 {c : Char} (h : uriUnreserved c = true) :
    c.toNat < 256 := by
  unfold uriUnreserved at h
  simp only [Bool.or_eq_true, Bool.and_eq_true, decide_eq_true_eq] at h
  rcases h with (((((((((((h | h) | h) | rfl) | rfl) | rfl) | rfl) | rfl) | rfl)
    | rfl) | rfl) | rfl)
  all_goals first
    | omega
    | decide

/-- Uppercase hexadecimal digits are ASCII. -/
theorem hexDigitUpper_lt256 {m : ℕ} (h : m < 16) :
    (hexDigitUpper m).toNat < 256 := by
  unfold hexDigitUpper
  split_ifs with h10
  · rw [toNat_ofNat_valid (Or.inl (by omega))]
    omega
  · rw [toNat_ofNat_valid (Or.inl (by omega))]
    omega

/-- Every character `encodeURIComponent` emits is latin-1, so `btoa`
accepts its output. -/
theorem encodeURIComponent_lt256 (s : List Char) :
    ∀ c ∈ encodeURIComponent s, c.toNat < 256 := by
  intro c hc
  unfold encodeURIComponent at hc
  rcases List.mem_flatMap.mp hc with ⟨a, -, hca⟩
  by_cases hu : uriUnreserved a = true
  · rw [if_pos hu] at hca
    rcases List.mem_singleton.mp hca with rfl
    exact uriUnreserved_lt256 hu
  · rw [if_neg hu] at hca
    rcases List.mem_flatMap.mp hca with ⟨b, hb, hcb⟩
    have hb256 : b < 256 := utf8EncodeChar_lt256 a b hb
    unfold percentEncodeByte at hcb
    simp only [List.mem_cons, List.not_mem_nil, or_false] at hcb
    rcases hcb with rfl | rfl | rfl
    · decide
    · exact hexDigitUpper_lt256 (by omega)
    · exact hexDigitUpper_lt256 (by omega)

/-- Percent-encoding never shortens a string (each source character
contributes at least one output character). -/
theorem encodeURIComponent_length (s : List Char) :
    s.length ≤ (encodeURIComponent s).length := by
  induction s with
  | nil => simp [encodeURIComponent]
  | cons a t ih =>
    unfold encodeURIComponent at ih ⊢
    simp only [List.flatMap_cons, List.length_append, List.length_cons]
    by_cases hu : uriUnreserved a = true
    · rw [if_pos hu]
      simp only [List.length_cons, List.length_nil]
      omega
    · rw [if_neg hu]
      obtain ⟨b, bs, hbs⟩ := List.exists_cons_of_ne_nil (utf8EncodeChar_ne_nil a)
      rw [hbs]
      simp only [List.flatMap_cons, List.length_append]
      rw [show (percentEncodeByte b).length = 3 from rfl]
      omega

/-- Base64 never shortens a byte list. -/
theorem b64EncodeBytes_length : ∀ bs : List ℕ, bs.length ≤ (b64EncodeBytes bs).length
  | [] => le_refl _
  | [_] => by simp [b64EncodeBytes]
  | [_, _] => by simp [b64EncodeBytes]
  | a :: b :: c :: rest => by
    have ih := b64EncodeBytes_length rest
    simp only [b64EncodeBytes, List.length_cons]
    omega

/-- Base64 output of a nonempty input is nonempty. -/
theorem b64EncodeBytes_ne_nil : ∀ (a : ℕ) (t : List ℕ), b64EncodeBytes (a :: t) ≠ []
  | _, [] => by simp [b64EncodeBytes]
  | _, [_] => by simp [b64EncodeBytes]
  | _, _ :: _ :: _ => by simp [b64EncodeBytes]

/-- Each base64 alphabet character passes the shape test of the
compression heuristic. -/
theorem b64Char_class : ∀ n : ℕ, n < 64 →
    (('A' ≤ b64Char n && b64Char n ≤ 'Z') || ('a' ≤ b64Char n && b64Char n ≤ 'z')
      || ('0' ≤ b64Char n && b64Char n ≤ '9') || b64Char n = '+' || b64Char n = '/'
      || b64Char n = '=') = true := by
  decide

/-- Every character of a base64 encoding is an alphabet character or the
padding character. -/
theorem b64EncodeBytes_mem : ∀ bs : List ℕ, (∀ b ∈ bs, b < 256) →
    ∀ c ∈ b64EncodeBytes bs, (∃ n, n < 64 ∧ c = b64Char n) ∨ c = '='
  | [], _, c, hc => absurd hc (by simp [b64EncodeBytes])
  | [a], hb, c, hc => by
    have ha : a < 256 := hb a (by simp)
    rw [show b64EncodeBytes [a]
      = [b64Char (a / 4), b64Char (a % 4 * 16), '=', '='] from rfl] at hc
    simp only [List.mem_cons, List.not_mem_nil, or_false] at hc
    rcases hc with rfl | rfl | rfl | rfl
    · exact Or.inl ⟨a / 4, by omega, rfl⟩
    · exact Or.inl ⟨a % 4 * 16, by omega, rfl⟩
    · exact Or.inr rfl
    · exact Or.inr rfl
  | [a, b], hb, c, hc => by
    have ha : a < 256 := hb a (by simp)
    have hbb : b < 256 := hb b (by simp)
    rw [show b64EncodeBytes [a, b]
      = [b64Char (a / 4), b64Char (a % 4 * 16 + b / 16), b64Char (b % 16 * 4), '=']
      from rfl] at hc
    simp only [List.mem_cons, List.not_mem_nil, or_false] at hc
    rcases hc with rfl | rfl | rfl | rfl
    · exact Or.inl ⟨a / 4, by omega, rfl⟩
    · exact Or.inl ⟨a % 4 * 16 + b / 16, by omega, rfl⟩
    · exact Or.inl ⟨b % 16 * 4, by omega, rfl⟩
    · exact Or.inr rfl
  | a :: b :: c0 :: rest, hb, c, hc => by
    have ha : a < 256 := hb a (by simp)
    have hbb : b < 256 := hb b (by simp)
    have hc0 : c0 < 256 := hb c0 (by simp)
    rw [show b64EncodeBytes (a :: b :: c0 :: rest)
      = b64Char (a / 4) :: b64Char (a % 4 * 16 + b / 16)
          :: b64Char (b % 16 * 4 + c0 / 64) :: b64Char (c0 % 64)
          :: b64EncodeBytes rest from rfl] at hc
    simp only [List.mem_cons] at hc
    rcases hc with rfl | rfl | rfl | rfl | hc
    · exact Or.inl ⟨a / 4, by omega, rfl⟩
    · exact Or.inl ⟨a % 4 * 16 + b / 16, by omega, rfl⟩
    · exact Or.inl ⟨b % 16 * 4 + c0 / 64, by omega, rfl⟩
    · exact Or.inl ⟨c0 % 64, by omega, rfl⟩
    · exact b64EncodeBytes_mem rest (fun x hx => hb x (by simp [hx])) c hc

/-- The base64 encoding of a nonempty latin-1 byte list passes the
compression heuristic's shape test. -/
theorem b64EncodeBytes_shape (bs : List ℕ) (hb : ∀ b ∈ bs, b < 256)
    (hne : bs ≠ []) : base64Shape (b64EncodeBytes bs) = true := by
  obtain ⟨a, t, rfl⟩ := List.exists_cons_of_ne_nil hne
  unfold base64Shape
  rw [Bool.and_eq_true, List.all_eq_true]
  constructor
  · cases h : b64EncodeBytes (a :: t) with
    | nil => exact absurd h (b64EncodeBytes_ne_nil a t)
    | cons x xs => rfl
  · intro c hc
    rcases b64EncodeBytes_mem (a :: t) hb c hc with ⟨n, hn, rfl⟩ | rfl
    · exact b64Char_class n hn
    · decide

/-- Reading back the raw key just written. -/
theorem rawSet_get (store : RawStore) (key raw : List Char) :
    rawSet store key raw key = some raw := by
  unfold rawSet
  rw [if_pos rfl]

/-- The stored envelope's `value` field. -/
theorem jsField_envelope_value (d : JValue) (ts : ℤ) :
    jsField (storageEnvelope d ts) (("value").toList) = some d := rfl

/-- The stored envelope's `timestamp` field. -/
theorem jsField_envelope_timestamp (d : JValue) (ts : ℤ) :
    jsField (storageEnvelope d ts) (("timestamp").toList) = some (.jnum ts) := rfl

/-- The serialised envelope is a nonempty string. -/
theorem stringify_envelope_isEmpty (d : JValue) (ts : ℤ) :
    (stringify (storageEnvelope d ts)).isEmpty = false := rfl

/-- `saveToStorage` without the size-based transform (compression off,
non-object data, or a small payload) stores the plain envelope. -/
theorem saveToStorage_plain (store : RawStore) (key : List Char) (v : JValue)
    (comp : Bool) (now : ℤ)
    (h : (comp && jsTypeofObject v) = false ∨ ¬(stringify v).length > 5000) :
    saveToStorage store key v comp now false
      = (true, rawSet store key (stringify (storageEnvelope v now))) := by
  simp only [saveToStorage]
  by_cases hc : (comp && jsTypeofObject v) = true
  · have hl : ¬(stringify v).length > 5000 := by
      rcases h with h | h
      · rw [hc] at h
        exact absurd h (by decide)
      · exact h
    rw [if_pos hc, if_neg hl]
    rfl
  · rw [if_neg hc]
    rfl

/-- `saveToStorage` with compression on, an object payload over the size
threshold: the stored envelope holds the base64 of the percent-encoded
JSON text. -/
theorem saveToStorage_compressed (store : RawStore) (key : List Char)
    (v : JValue) (now : ℤ) (hobj : jsTypeofObject v = true)
    (hlen : (stringify v).length > 5000) :
    saveToStorage store key v true now false
      = (true, rawSet store key (stringify (storageEnvelope
          (.jstr (b64EncodeBytes ((encodeURIComponent (stringify v)).map Char.toNat)))
          now))) := by
  simp only [saveToStorage]
  rw [if_pos (by simp [hobj]), if_pos hlen,
    (atob_btoa (encodeURIComponent (stringify v)) (encodeURIComponent_lt256 _)).1]
  rfl

/-- Reading a fresh envelope whose payload is not a string returns the
payload unchanged. -/
theorem loadFromStorage_envelope_obj (store : RawStore) (key : List Char)
    (d : JValue) (ts now : ℤ) (hstr : ∀ s, d ≠ .jstr s)
    (hexp : ¬now - ts > EXPIRY_TIME) :
    loadFromStorage (rawSet store key (stringify (storageEnvelope d ts))) key now
      = (some d, rawSet store key (stringify (storageEnvelope d ts))) := by
  simp only [loadFromStorage, rawSet_get, stringify_envelope_isEmpty,
    Bool.false_eq_true, if_false, jsonParse_stringify, jsField_envelope_timestamp,
    jsField_envelope_value]
  rw [decide_eq_false hexp, if_neg Bool.false_ne_true]

/-- Reading a fresh envelope holding a long base64 string payload decodes
it through `atob` / `decodeURIComponent` / `JSON.parse`. -/
theorem loadFromStorage_envelope_b64 (store : RawStore) (key : List Char)
    (B : List Char) (ts now : ℤ) (hexp : ¬now - ts > EXPIRY_TIME)
    (hlen : B.length > 100) (hshape : base64Shape B = true) (w : JValue)
    (hdec : (atob B).bind (fun t => (decodeURIComponent t).bind jsonParse)
      = some w) :
    loadFromStorage (rawSet store key (stringify (storageEnvelope (.jstr B) ts)))
        key now
      = (some w, rawSet store key (stringify (storageEnvelope (.jstr B) ts))) := by
  simp only [loadFromStorage, rawSet_get, stringify_envelope_isEmpty,
    Bool.false_eq_true, if_false, jsonParse_stringify, jsField_envelope_timestamp,
    jsField_envelope_value]
  rw [decide_eq_false hexp, if_neg Bool.false_ne_true,
    if_pos (by simp [hshape, hlen])]
  simp only [hdec]

/-- Reading an envelope stored more than `EXPIRY_TIME` ago purges it and
returns absent. -/
theorem loadFromStorage_envelope_expired (store : RawStore) (key : List Char)
    (d : JValue) (ts now : ℤ) (hexp : now - ts > EXPIRY_TIME) :
    loadFromStorage (rawSet store key (stringify (storageEnvelope d ts))) key now
      = (none, rawRemove (rawSet store key (stringify (storageEnvelope d ts))) key) := by
  simp only [loadFromStorage, rawSet_get, stringify_envelope_isEmpty,
    Bool.false_eq_true, if_false, jsonParse_stringify, jsField_envelope_timestamp]
  rw [if_pos (decide_eq_true hexp)]

/-- C8: Storage Adapter round-trip.  For any object-typed value (`null`,
array or object — `typeof data === 'object'`), `saveToStorage(key, data,
useCompression)` followed immediately by `loadFromStorage(key)` returns a
value deeply equal to the original, whether or not the size-based
base64/percent-encoding transform was applied. -/
theorem storage_roundtrip (store : RawStore) (key : List Char) (v : JValue)
    (comp : Bool) (now : ℤ) (hv : jsTypeofObject v = true) :
    (loadFromStorage (saveToStorage store key v comp now false).2 key now).1
      = some v := by
  have hstr : ∀ s, v ≠ .jstr s := by
    intro s h
    rw [h] at hv
    simp [jsTypeofObject] at hv
  have hexp : ¬now - now > EXPIRY_TIME := by
    unfold EXPIRY_TIME
    omega
  by_cases hbig : (comp && jsTypeofObject v) = true ∧ (stringify v).length > 5000
  · obtain ⟨hc, hl⟩ := hbig
    rw [hv, Bool.and_true] at hc
    subst hc
    have henc256 : ∀ c ∈ encodeURIComponent (stringify v), c.toNat < 256 :=
      encodeURIComponent_lt256 (stringify v)
    have hbytes : ∀ b ∈ (encodeURIComponent (stringify v)).map Char.toNat, b < 256 := by
      intro b hb
      rcases List.mem_map.mp hb with ⟨c, hcs, rfl⟩
      exact henc256 c hcs
    have henclen := encodeURIComponent_length (stringify v)
    have hblen := b64EncodeBytes_length ((encodeURIComponent (stringify v)).map Char.toNat)
    rw [List.length_map] at hblen
    have hBlen : (b64EncodeBytes ((encodeURIComponent (stringify v)).map Char.toNat)).length > 100 := by
      omega
    have hBshape : base64Shape (b64EncodeBytes ((encodeURIComponent (stringify v)).map Char.toNat)) = true := by
      refine b64EncodeBytes_shape _ hbytes (fun hnil => ?_)
      rw [List.map_eq_nil_iff] at hnil
      have := congrArg List.length hnil
      simp only [List.length_nil] at this
      omega
    have hdec : (atob (b64EncodeBytes ((encodeURIComponent (stringify v)).map Char.toNat))).bind
        (fun t => (decodeURIComponent t).bind jsonParse) = some v := by
      rw [(atob_btoa (encodeURIComponent (stringify v)) henc256).2]
      simp only [Option.some_bind, decodeURIComponent_encode, jsonParse_stringify]
    simp only [saveToStorage_compressed store key v now hv hl]
    rw [loadFromStorage_envelope_b64 store key _ now now hexp hBlen hBshape v hdec]
  · have hds : (comp && jsTypeofObject v) = false ∨ ¬(stringify v).length > 5000 := by
      by_cases h1 : (comp && jsTypeofObject v) = true
      · exact Or.inr (fun h2 => hbig ⟨h1, h2⟩)
      · exact Or.inl (by simpa using h1)
    simp only [saveToStorage_plain store key v comp now hds]
    rw [loadFromStorage_envelope_obj store key v now now hstr hexp]

/-- C8 witness: the round-trip at the structured object
`{a: 1, b: [1, 2, 3]}`. -/
theorem storage_roundtrip_witness :
    jsTypeofObject (JValue.jobj [((("a").toList), .jnum 1),
      ((("b").toList), .jarr [.jnum 1, .jnum 2, .jnum 3])]) = true
    ∧ (loadFromStorage (saveToStorage (fun _ => none) (("k").toList)
        (JValue.jobj [((("a").toList), .jnum 1),
          ((("b").toList), .jarr [.jnum 1, .jnum 2, .jnum 3])]) true 0 false).2
        (("k").toList) 0).1
      = some (JValue.jobj [((("a").toList), .jnum 1),
          ((("b").toList), .jarr [.jnum 1, .jnum 2, .jnum 3])]) :=
  ⟨by decide, storage_roundtrip (fun _ => none) (("k").toList) _ true 0 (by decide)⟩

/-- C9: no exception escapes the Storage Adapter.  `saveToStorage` always
returns a boolean: `false` (store unchanged) when the underlying
`localStorage.setItem` throws, `true` otherwise — in particular the
base64 transform never fails on its own output, so serialization always
succeeds when the store accepts the write.  `loadFromStorage` always
returns a value or absent: a stored raw string that fails `JSON.parse`
yields absent rather than an exception. -/
theorem storage_error_handling (store : RawStore) (key : List Char)
    (v : JValue) (comp : Bool) (now : ℤ) :
    saveToStorage store key v comp now true = (false, store)
    ∧ (saveToStorage store key v comp now false).1 = true
    ∧ (∀ raw, store key = some raw → jsonParse raw = none →
        loadFromStorage store key now = (none, store)) := by
  refine ⟨?_, ?_, ?_⟩
  · simp only [saveToStorage]
    by_cases hc : (comp && jsTypeofObject v) = true
    · by_cases hl : (stringify v).length > 5000
      · rw [if_pos hc, if_pos hl,
          (atob_btoa (encodeURIComponent (stringify v)) (encodeURIComponent_lt256 _)).1]
        rfl
      · rw [if_pos hc, if_neg hl]
        rfl
    · rw [if_neg hc]
      rfl
  · by_cases hc : (comp && jsTypeofObject v) = true
    · by_cases hl : (stringify v).length > 5000
      · obtain ⟨hcomp, hobj⟩ := Bool.and_eq_true_iff.mp hc
        subst hcomp
        rw [saveToStorage_compressed store key v now hobj hl]
      · rw [saveToStorage_plain store key v comp now (Or.inr hl)]
    · rw [saveToStorage_plain store key v comp now (Or.inl (by simpa using hc))]
  · intro raw hraw hparse
    simp only [loadFromStorage, hraw]
    by_cases hre : raw.isEmpty = true
    · rw [if_pos hre]
    · rw [if_neg hre]
      simp only [hparse]

/-- C9 witness: a stored raw string that is not valid JSON is read back
as absent. -/
theorem storage_error_handling_witness :
    (fun k => if k = ("k").toList then some (("not json").toList) else none : RawStore)
        (("k").toList) = some (("not json").toList)
    ∧ jsonParse (("not json").toList) = none
    ∧ loadFromStorage
        (fun k => if k = ("k").toList then some (("not json").toList) else none)
        (("k").toList) 0
      = (none, fun k => if k = ("k").toList then some (("not json").toList) else none) :=
  ⟨by decide, by decide,
   (storage_error_handling
      (fun k => if k = ("k").toList then some (("not json").toList) else none)
      (("k").toList) .jnull false 0).2.2 (("not json").toList) (by decide) (by decide)⟩

/-- C3 (amended): TTL semantics of the two adapters.  In the part_000
adapter a stored `ttl` of `0` is falsy, so the item never expires (the
claimed "absent after any positive elapsed time" is false — see the
counterexample); a nonzero ttl does expire once `now - timestamp > ttl`.
In the utils.js adapter there is no per-item ttl at all: every envelope
expires after the fixed 30-day `EXPIRY_TIME`. -/
theorem ttl_expiry_amended :
    (∀ (store : ItemStore ℤ) (key : List Char) (v : ℤ) (ts now : ℤ),
      (getLocalStorage (setLocalStorage store key v (some 0) ts) key now).1
        = some v)
    ∧ (∀ (store : ItemStore ℤ) (key : List Char) (v : ℤ) (t ts now : ℤ),
      t ≠ 0 → now - ts > t →
      (getLocalStorage (setLocalStorage store key v (some t) ts) key now).1
        = none)
    ∧ (∀ (store : RawStore) (key : List Char) (v : JValue) (comp : Bool)
        (ts now : ℤ), now - ts > EXPIRY_TIME →
      (loadFromStorage (saveToStorage store key v comp ts false).2 key now).1
        = none) := by
  refine ⟨?_, ?_, ?_⟩
  · intro store key v ts now
    have hk : setLocalStorage store key v (some 0) ts key
        = some { value := v, timestamp := ts, ttl := some 0 } := by
      unfold setLocalStorage
      rw [if_pos rfl]
    simp only [getLocalStorage, hk]
    rfl
  · intro store key v t ts now ht hgt
    have hk : setLocalStorage store key v (some t) ts key
        = some { value := v, timestamp := ts, ttl := some t } := by
      unfold setLocalStorage
      rw [if_pos rfl]
    simp only [getLocalStorage, hk, ttlTruthy]
    rw [if_pos (by simp [ht]; exact hgt)]
  · intro store key v comp ts now hgt
    by_cases hbig : (comp && jsTypeofObject v) = true ∧ (stringify v).length > 5000
    · obtain ⟨hc, hl⟩ := hbig
      obtain ⟨hcomp, hobj⟩ := Bool.and_eq_true_iff.mp hc
      subst hcomp
      simp only [saveToStorage_compressed store key v ts hobj hl]
      rw [loadFromStorage_envelope_expired store key _ ts now hgt]
    · have hds : (comp && jsTypeofObject v) = false ∨ ¬(stringify v).length > 5000 := by
        by_cases h1 : (comp && jsTypeofObject v) = true
        · exact Or.inr (fun h2 => hbig ⟨h1, h2⟩)
        · exact Or.inl (by simpa using h1)
      simp only [saveToStorage_plain store key v comp ts hds]
      rw [loadFromStorage_envelope_expired store key v ts now hgt]

/-- C3 witness: a utils.js envelope written at time `0` is absent at time
`EXPIRY_TIME + 1`, and a part_000 item with ttl `5` is absent once six
milliseconds have passed. -/
theorem ttl_expiry_amended_witness :
    ((2592000001 : ℤ) - 0 > EXPIRY_TIME)
    ∧ (loadFromStorage (saveToStorage (fun _ => none) (("k").toList) .jnull
        false 0 false).2 (("k").toList) 2592000001).1 = none
    ∧ ((5 : ℤ) ≠ 0 ∧ (6 : ℤ) - 0 > 5)
    ∧ (getLocalStorage (setLocalStorage (fun _ => none) (("k").toList)
        (7 : ℤ) (some 5) 0) (("k").toList) 6).1 = none :=
  ⟨by decide,
   ttl_expiry_amended.2.2 (fun _ => none) (("k").toList) .jnull false 0
     2592000001 (by decide),
   ⟨by decide, by decide⟩,
   ttl_expiry_amended.2.1 (fun _ => none) (("k").toList) 7 5 0 6
     (by decide) (by decide)⟩

end Arka
